import Mathlib

/-!
Verification development for the gactk-rs repository: a shallow embedding of
the Antwerp tiling-notation parser and formatter, the (unfinished) lattice
generator, and the 2D geometry primitives, together with theorems settling
the specification claims. Strings are modelled as lists of characters;
Rust usize values are naturals with explicit bounds at 2 to the 64; functions
that can fail return Except values, and functions that can panic return
Option values (none denotes a panic).
-/

namespace Gactk

/-! ## Decimal numerals (model of Rust usize parsing and formatting) -/

/-- The number of values of a 64-bit usize; Rust usize parsing fails on
values at or above this bound. -/
def USIZE : Nat := 2 ^ 64

/-- The value of usize MAX, used as a sentinel by the configuration parser. -/
def UMAX : Nat := USIZE - 1

/-- Whether a character is an ASCII decimal digit. -/
def isDigit (c : Char) : Bool := 48 ≤ c.toNat && c.toNat ≤ 57

/-- The ASCII character of a decimal digit value. -/
def digitChar (d : Nat) : Char := Char.ofNat (48 + d)

/-- Fuel-driven core of decimal formatting (the fuel only serves
termination; natToDigits always supplies enough). -/
def natToDigitsCore : Nat → Nat → List Char
  | 0, _ => []
  | fuel + 1, n =>
    if n < 10 then [digitChar n]
    else natToDigitsCore fuel (n / 10) ++ [digitChar (n % 10)]

/-- The decimal numeral of a natural number, as Rust to_string produces. -/
def natToDigits (n : Nat) : List Char := natToDigitsCore (n + 1) n

/-- Digit-accumulation loop of usize parsing, with the overflow check
modelling checked_mul / checked_add against usize MAX. -/
def parseDigitsLoop : List Char → Nat → Option Nat
  | [], acc => some acc
  | c :: cs, acc =>
    if isDigit c then
      let v := acc * 10 + (c.toNat - 48)
      if v < USIZE then parseDigitsLoop cs v else none
    else none

/-- Parse a non-empty all-digit string as a usize value. -/
def parseDigits (s : List Char) : Option Nat :=
  match s with
  | [] => none
  | _ => parseDigitsLoop s 0

/-- Model of Rust str parse to usize: an optional leading plus sign
followed by one or more ASCII digits, rejecting overflow. -/
def parseUsize (s : List Char) : Option Nat :=
  match s with
  | [] => none
  | c :: rest => if c = '+' then parseDigits rest else parseDigits (c :: rest)

/-! ## String splitting and joining -/

/-- Model of Rust str split on a single separator character: the empty
string yields one empty piece, and every separator starts a new piece. -/
def splitChar (sep : Char) : List Char → List (List Char)
  | [] => [[]]
  | c :: cs =>
    if c = sep then [] :: splitChar sep cs
    else
      match splitChar sep cs with
      | [] => [[c]]
      | t :: ts => (c :: t) :: ts

/-- Model of Rust slice join on a single separator character. -/
def joinChar (sep : Char) : List (List Char) → List Char
  | [] => []
  | [p] => p
  | p :: ps => p ++ sep :: joinChar sep ps

/-! ## Data model of src/geometry/antwerp.rs -/

/-- A feature of a reference polygon tile: a corner, the centre, or an
edge midpoint, each with an index. -/
inductive VertexType where
  | Corner (index : Nat)
  | Centre (index : Nat)
  | Edge (index : Nat)
  deriving DecidableEq, Repr

/-- The anchor of a transformation: the origin with an optional angle in
degrees, or a vertex feature of a reference tile. -/
inductive TransformationSource where
  | Origin (angle : Option Nat)
  | Vertex (vertex : VertexType)
  deriving DecidableEq, Repr

/-- A rigid-motion transformation: a rotation or a reflection. -/
inductive Transformation where
  | Rotation (source : TransformationSource)
  | Reflection (source : TransformationSource)
  deriving DecidableEq, Repr

/-- A tiling configuration: seed polygon order, phases of polygon orders,
and the transformation sequence. -/
structure Configuration where
  seed : Nat
  phases : List (List Nat)
  transformations : List Transformation
  deriving DecidableEq, Repr

/-! ## Formatting (the Display implementations) -/

/-- Display of VertexType: the feature letter then the index. -/
def formatVertexType : VertexType → List Char
  | VertexType.Corner i => 'v' :: natToDigits i
  | VertexType.Centre i => 'c' :: natToDigits i
  | VertexType.Edge i => 'h' :: natToDigits i

/-- Display of TransformationSource: nothing, a bare angle, or a
parenthesized vertex specifier. -/
def formatSource : TransformationSource → List Char
  | TransformationSource.Origin none => []
  | TransformationSource.Origin (some a) => natToDigits a
  | TransformationSource.Vertex v => '(' :: (formatVertexType v ++ [')'])

/-- Display of Transformation: the kind letter then the source text. -/
def formatTransformation : Transformation → List Char
  | Transformation.Rotation s => 'r' :: formatSource s
  | Transformation.Reflection s => 'm' :: formatSource s

/-- Display of Configuration: seed, a dash and the dash-joined phases when
any exist, a slash, then the slash-joined transformations. -/
def formatConfiguration (c : Configuration) : List Char :=
  natToDigits c.seed
    ++ (if c.phases.length > 0 then ['-'] else [])
    ++ joinChar '-' (c.phases.map fun phase => joinChar ',' (phase.map natToDigits))
    ++ '/' :: joinChar '/' (c.transformations.map formatTransformation)

/-! ## Parsing (Configuration TryFrom a string) -/

def msgMissingTransformations : String :=
  "Configuration string must have at least one transformation"

def msgInvalidSeed : String := "Invalid seed in configuration string"

def msgInvalidShape : String := "Invalid shape in configuration string"

def msgUnknownTransformationChar : String :=
  "Unknown transformation character in configuration string"

def msgUnknownVertexTypeChar : String :=
  "Unknown vertex type character in configuration string"

def msgInvalidVertexIndex : String := "Invalid vertex index in configuration string"

def msgEmptyVertexSpecifier : String := "Empty vertex specifier in configuration string"

def msgEmptyTransformation : String := "Empty transformation in configuration string"

/-- The push_transformation closure: build the transformation from the
kind character, rejecting characters other than r and m. -/
def mkTransformation (kindChar : Char) (source : TransformationSource) :
    Except String Transformation :=
  if kindChar = 'r' then Except.ok (Transformation.Rotation source)
  else if kindChar = 'm' then Except.ok (Transformation.Reflection source)
  else Except.error msgUnknownTransformationChar

/-- Parse one slash-piece as a transformation, mirroring the loop body of
Configuration try_from: empty source means Origin none; a numeric source
means Origin some; otherwise exactly the first and last characters are
stripped (unverified) and the interior is read as a vertex specifier,
whose index is parsed before the feature letter is checked. -/
def parseTransformation (piece : List Char) : Except String Transformation :=
  match piece with
  | [] => Except.error msgEmptyTransformation
  | kindChar :: sourceChars =>
    match sourceChars with
    | [] => mkTransformation kindChar (TransformationSource.Origin none)
    | _ =>
      match parseUsize sourceChars with
      | some v => mkTransformation kindChar (TransformationSource.Origin (some v))
      | none =>
        match (sourceChars.drop 1).dropLast with
        | [] => Except.error msgEmptyVertexSpecifier
        | vertexChar :: indexChars =>
          match parseUsize indexChars with
          | some index =>
            if vertexChar = 'v' then
              mkTransformation kindChar (TransformationSource.Vertex (VertexType.Corner index))
            else if vertexChar = 'c' then
              mkTransformation kindChar (TransformationSource.Vertex (VertexType.Centre index))
            else if vertexChar = 'h' then
              mkTransformation kindChar (TransformationSource.Vertex (VertexType.Edge index))
            else Except.error msgUnknownVertexTypeChar
          | none => Except.error msgInvalidVertexIndex

/-- The seed-and-phases loop: usize MAX is the sentinel meaning the seed
has not been read yet; afterwards each dash-segment becomes one phase of
comma-separated polygon orders. -/
def seedPhasesLoop : List (List Char) → Nat → List (List Nat) →
    Except String (Nat × List (List Nat))
  | [], seed, phases => Except.ok (seed, phases)
  | seg :: rest, seed, phases =>
    if seed = UMAX then
      match parseUsize seg with
      | some seedOrder => seedPhasesLoop rest seedOrder phases
      | none => Except.error msgInvalidSeed
    else
      match parseShapes (splitChar ',' seg) with
      | some phase => seedPhasesLoop rest seed (phases ++ [phase])
      | none => Except.error msgInvalidShape
where
  /-- Parse each comma-piece of one phase as a polygon order. -/
  parseShapes : List (List Char) → Option (List Nat)
  | [] => some []
  | shape :: shapes =>
    match parseUsize shape, parseShapes shapes with
    | some n, some ns => some (n :: ns)
    | _, _ => none

/-- The transformation loop of Configuration try_from, stopping at the
first failing piece. -/
def transformationsLoop : List (List Char) → Except String (List Transformation)
  | [] => Except.ok []
  | piece :: rest =>
    match parseTransformation piece with
    | Except.ok t =>
      match transformationsLoop rest with
      | Except.ok ts => Except.ok (t :: ts)
      | Except.error e => Except.error e
    | Except.error e => Except.error e

/-- Model of Configuration try_from: split on slash, require at least two
pieces, read seed and phases from the first piece, then read each further
piece as a transformation. -/
def tryFrom (s : List Char) : Except String Configuration :=
  match splitChar '/' s with
  | [] => Except.error msgMissingTransformations
  | [_] => Except.error msgMissingTransformations
  | head :: piece1 :: piecesRest =>
    match seedPhasesLoop (splitChar '-' head) UMAX [] with
    | Except.ok (seed, phases) =>
      match transformationsLoop (piece1 :: piecesRest) with
      | Except.ok ts => Except.ok ⟨seed, phases, ts⟩
      | Except.error e => Except.error e
    | Except.error e => Except.error e

/-! ## Geometry primitives: src/numerics/constants.rs, src/geometry/vec2.rs -/

namespace RealConst

noncomputable def PI : ℝ := Real.pi

noncomputable def TAU : ℝ := 2 * Real.pi

noncomputable def FRAC_PI_3 : ℝ := Real.pi / 3

noncomputable def TWO : ℝ := 2

noncomputable def HALF : ℝ := 0.5

/-- Modelled from the spec: the centroid code divides by a trait constant
THREE that is missing from the RealConst trait in src/numerics/constants.rs;
its intended value, following the named pattern of TWO and HALF, is 3. -/
noncomputable def THREE : ℝ := 3

end RealConst

/-- A two dimensional vector over the real numbers (the source is generic
over a floating point type; real numbers model exact arithmetic). -/
@[ext]
structure Vec2 where
  x : ℝ
  y : ℝ

namespace Vec2

def new (x y : ℝ) : Vec2 := ⟨x, y⟩

/-- The unit vector at a given angle in radians. -/
noncomputable def unit (radians : ℝ) : Vec2 := ⟨Real.cos radians, Real.sin radians⟩

noncomputable def magnitude (v : Vec2) : ℝ := Real.sqrt (v.x * v.x + v.y * v.y)

def dot (v other : Vec2) : ℝ := v.x * other.x + v.y * other.y

def cross (v other : Vec2) : ℝ := v.x * other.y - v.y * other.x

/-- Rotation of a vector about the origin by an angle in radians. -/
noncomputable def rotate (v : Vec2) (radians : ℝ) : Vec2 :=
  ⟨v.x * Real.cos radians - v.y * Real.sin radians,
   v.x * Real.sin radians + v.y * Real.cos radians⟩

def zero : Vec2 := ⟨0, 0⟩

end Vec2

noncomputable instance : Add Vec2 := ⟨fun v w => ⟨v.x + w.x, v.y + w.y⟩⟩

noncomputable instance : Sub Vec2 := ⟨fun v w => ⟨v.x - w.x, v.y - w.y⟩⟩

noncomputable instance : HMul Vec2 ℝ Vec2 := ⟨fun v r => ⟨v.x * r, v.y * r⟩⟩

noncomputable instance : HDiv Vec2 ℝ Vec2 := ⟨fun v r => ⟨v.x / r, v.y / r⟩⟩

/-! ## src/numerics/estimation.rs -/

/-- The interpolation function from src/numerics/estimation.rs, written
exactly as the source computes it. The second argument is named end in the
source; end is a reserved word here. -/
def lerp {X T : Type} [Add X] [Sub X] [HMul X T X] (start stop : X) (proportion : T) : X :=
  (start + (stop - start)) * proportion

/-! ## src/geometry/lineSegment2.rs -/

/-- A line segment; the second field is named end in the source. -/
structure LineSegment2 where
  start : Vec2
  stop : Vec2

def LineSegment2.new (start stop : Vec2) : LineSegment2 := ⟨start, stop⟩

noncomputable def LineSegment2.centre (seg : LineSegment2) : Vec2 :=
  lerp seg.start seg.stop RealConst.HALF

/-! ## src/geometry/poly2.rs -/

structure Poly2 where
  vertices : List Vec2

open Classical in
/-- The adjacent-duplicate filter loop inside Poly2 new: each vertex is
compared with its original predecessor in the input slice. -/
noncomputable def filterDup (prev : Vec2) : List Vec2 → List Vec2
  | [] => []
  | v :: rest => if v = prev then filterDup v rest else v :: filterDup v rest

/-- Poly2 new: panics (none) with fewer than three vertices, filters
adjacent duplicates, panics (none) with fewer than three distinct ones. -/
noncomputable def Poly2.new (vertices : List Vec2) : Option Poly2 :=
  if vertices.length ≤ 2 then none
  else
    match vertices with
    | [] => none
    | v0 :: rest =>
      let filtered := v0 :: filterDup v0 rest
      if filtered.length ≤ 2 then none else some ⟨filtered⟩

open Classical in
/-- Denotation of the while loop in Poly2 regular: the number of completed
iterations is the first m at which the loop condition m times angle less
than limit fails (the loop cannot diverge for a positive angle, so the
fallback 0 is never used there). -/
noncomputable def whileIterations (angle limit : ℝ) : ℕ :=
  if h : ∃ m : ℕ, ¬ ((m : ℝ) * angle < limit) then Nat.find h else 0

/-- Poly2 regular: panics (none) on a non-positive vertex count or side
length, then collects unit vectors at multiples of the step angle, scaled
by the circumradius; the accumulated angle after k additions of the step
is exactly k times the step over the reals. -/
noncomputable def Poly2.regular (vertex_count : ℕ) (side_length : ℝ) : Option Poly2 :=
  if vertex_count ≤ 0 then none
  else if side_length ≤ 0 then none
  else
    let n : ℝ := vertex_count
    let radius := side_length * RealConst.HALF / Real.sin (RealConst.PI / n)
    let angle := RealConst.TWO * RealConst.PI / n
    let limit := RealConst.TAU * (1 - 1 / n / RealConst.TWO)
    Poly2.new ((List.range (whileIterations angle limit)).map
      fun k : ℕ => Vec2.unit ((k : ℝ) * angle) * radius)

noncomputable def Poly2.translate (p : Poly2) (displacement : Vec2) : Option Poly2 :=
  Poly2.new (p.vertices.map fun v => v + displacement)

noncomputable def Poly2.rotate (p : Poly2) (radians : ℝ) : Option Poly2 :=
  Poly2.new (p.vertices.map fun v => v.rotate radians)

/-- Poly2 centroid, by the cross-product (shoelace) formula of the source,
including its special cases for zero and one vertices. -/
noncomputable def Poly2.centroid (p : Poly2) : Vec2 :=
  let v := p.vertices
  let n := v.length
  if n = 0 then Vec2.zero
  else if n = 1 then v.headD Vec2.zero
  else
    let cross := (List.range n).map fun i =>
      Vec2.cross (v.getD (i % n) Vec2.zero) (v.getD ((i + 1) % n) Vec2.zero)
    ((List.range n).map (fun i =>
        (v.getD (i % n) Vec2.zero + v.getD ((i + 1) % n) Vec2.zero) * cross.getD i 0)).foldl
      (· + ·) Vec2.zero
      / cross.foldl (· + ·) 0 / RealConst.THREE

/-- Poly2 edges: one segment per consecutive vertex pair, with no closing
segment back to the first vertex. -/
noncomputable def Poly2.edges (p : Poly2) : List LineSegment2 :=
  (List.range (p.vertices.length - 1)).map fun i =>
    LineSegment2.new (p.vertices.getD i Vec2.zero) (p.vertices.getD (i + 1) Vec2.zero)

/-! ## The lattice generator of src/geometry/antwerp.rs -/

/-- The generation result: tiles and the adjacency lists. -/
structure Lattice where
  tiles : List Poly2
  connectivity : List (List Nat)

/-- The message of the Err returned by create_tile and create_seed_tile on
an unsupported order (abridged: the source text uses a contraction). -/
def msgNotKosher : String := "That shape is kosher fam..."

/-- The message of the Err returned by starting_index. -/
def msgInvalidShapeLattice : String := "Invalid shape"

/-- create_tile: a unit-side regular polygon for the supported orders,
an Err otherwise; an inner panic from Poly2 regular propagates as none. -/
noncomputable def create_tile (sides : Nat) : Option (Except String Poly2) :=
  if sides = 3 ∨ sides = 4 ∨ sides = 6 ∨ sides = 8 ∨ sides = 12 then
    match Poly2.regular sides 1 with
    | some p => some (Except.ok p)
    | none => none
  else some (Except.error msgNotKosher)

/-- create_seed_tile: the tile from create_tile, translated for order 3 so
an edge sits on the reference line, rotated by pi over the side count for
the other supported orders. -/
noncomputable def create_seed_tile (sides : Nat) : Option (Except String Poly2) :=
  match create_tile sides with
  | some (Except.ok tile) =>
    if sides = 3 then
      match Poly2.translate tile
          (Vec2.unit RealConst.FRAC_PI_3 * (RealConst.HALF / Real.sin RealConst.FRAC_PI_3)) with
      | some p => some (Except.ok p)
      | none => none
    else if sides = 4 ∨ sides = 6 ∨ sides = 8 ∨ sides = 12 then
      match Poly2.rotate tile (RealConst.PI / (sides : ℝ)) with
      | some p => some (Except.ok p)
      | none => none
    else some (Except.error msgNotKosher)
  | other => other

/-- starting_index: the attachment edge index per supported order. -/
def starting_index (sides : Nat) : Except String Nat :=
  if sides = 3 ∨ sides = 4 ∨ sides = 6 then Except.ok 0
  else if sides = 8 then Except.ok 1
  else if sides = 12 then Except.ok 2
  else Except.error msgInvalidShapeLattice

/-- The body of the inner loop of Lattice generate after the tile is
built: the first tile ever is pushed; with exactly one tile present the
starting index is computed and discarded (its Result is never unwrapped);
otherwise nothing happens. -/
noncomputable def generateTilePlacement (shape : Poly2) (shape_order : Nat)
    (tiles : List Poly2) : List Poly2 :=
  if tiles.length = 0 then tiles ++ [shape]
  else if tiles.length = 1 then
    let join_index := starting_index shape_order
    tiles
  else tiles

/-- The inner loop of Lattice generate over the orders of one phase; the
expect call turns the Err of create_tile into a panic (none). -/
noncomputable def generatePhaseLoop : List Nat → List Poly2 → Option (List Poly2)
  | [], tiles => some tiles
  | shape_order :: rest, tiles =>
    match create_tile shape_order with
    | some (Except.ok shape) =>
      generatePhaseLoop rest (generateTilePlacement shape shape_order tiles)
    | _ => none

/-- The outer loop of Lattice generate over the phases. -/
noncomputable def generatePhasesLoop : List (List Nat) → List Poly2 → Option (List Poly2)
  | [], tiles => some tiles
  | phase :: rest, tiles =>
    match generatePhaseLoop phase tiles with
    | some tiles2 => generatePhasesLoop rest tiles2
    | none => none

/-- Lattice generate: iterates the phases building tiles (the seed is
never constructed and the iterations argument is never read in the
source), and always returns an empty connectivity list. -/
noncomputable def generate (config : Configuration) (iterations : Nat) : Option Lattice :=
  match generatePhasesLoop config.phases [] with
  | some tiles => some ⟨tiles, []⟩
  | none => none

/-! ## Predicates used by the claims -/

/-- A phase as the parser can produce it: non-empty, all orders in the
usize range. -/
def GoodPhase (p : List Nat) : Prop := p ≠ [] ∧ ∀ n ∈ p, n < USIZE

/-- Numeric bounds of a transformation source as the parser produces it. -/
def sourceBound : TransformationSource → Prop
  | TransformationSource.Origin none => True
  | TransformationSource.Origin (some a) => a < USIZE
  | TransformationSource.Vertex (VertexType.Corner i) => i < USIZE
  | TransformationSource.Vertex (VertexType.Centre i) => i < USIZE
  | TransformationSource.Vertex (VertexType.Edge i) => i < USIZE

/-- Numeric bounds of a transformation as the parser produces it. -/
def GoodTransformation : Transformation → Prop
  | Transformation.Rotation s => sourceBound s
  | Transformation.Reflection s => sourceBound s

/-- The shape of every configuration the parser can return: bounded seed,
the usize MAX sentinel seed only with no phases, non-empty bounded phases,
and at least one transformation, all bounded. -/
def Producible (c : Configuration) : Prop :=
  c.seed < USIZE ∧ (c.seed = UMAX → c.phases = []) ∧
  (∀ p ∈ c.phases, GoodPhase p) ∧
  c.transformations ≠ [] ∧ ∀ t ∈ c.transformations, GoodTransformation t

/-- Symmetry of a connectivity table: whenever the entry of tile i lists
j, the entry of tile j lists i. -/
def SymmetricConnectivity (conn : List (List Nat)) : Prop :=
  ∀ i j : Nat, j ∈ conn.getD i [] → i ∈ conn.getD j []

/-! # Theorems -/

/-! ## Decimal numeral lemmas -/

theorem natToDigitsCore_congr : ∀ f g n : Nat, n < f → n < g →
    natToDigitsCore f n = natToDigitsCore g n := by
  intro f
  induction f with
  | zero => intro g n hf _; exact absurd hf (Nat.not_lt_zero n)
  | succ f ih =>
    intro g n hf hg
    cases g with
    | zero => exact absurd hg (Nat.not_lt_zero n)
    | succ g =>
      show natToDigitsCore (f + 1) n = natToDigitsCore (g + 1) n
      by_cases h10 : n < 10
      · simp [natToDigitsCore, h10]
      · have hdiv : n / 10 < n := Nat.div_lt_self (by omega) (by norm_num)
        simp only [natToDigitsCore, if_neg h10]
        rw [ih g (n / 10) (by omega) (by omega)]

theorem natToDigits_eq (n : Nat) : natToDigits n =
    if n < 10 then [digitChar n]
    else natToDigits (n / 10) ++ [digitChar (n % 10)] := by
  show natToDigitsCore (n + 1) n = _
  by_cases h10 : n < 10
  · simp [natToDigitsCore, h10]
  · have hdiv : n / 10 < n := Nat.div_lt_self (by omega) (by norm_num)
    simp only [natToDigitsCore, if_neg h10]
    rw [natToDigitsCore_congr n (n / 10 + 1) (n / 10) (by omega) (by omega)]
    rfl

theorem digitChar_toNat (d : Nat) (h : d < 10) : (digitChar d).toNat = 48 + d := by
  interval_cases d <;> decide

theorem isDigit_digitChar (d : Nat) (h : d < 10) : isDigit (digitChar d) = true := by
  interval_cases d <;> decide

theorem natToDigits_ne_nil (n : Nat) : natToDigits n ≠ [] := by
  rw [natToDigits_eq]
  by_cases h : n < 10 <;> simp [h]

theorem isDigit_of_mem_natToDigits : ∀ n c, c ∈ natToDigits n → isDigit c = true := by
  intro n
  induction n using Nat.strong_induction_on with
  | _ n ih =>
    intro c hc
    rw [natToDigits_eq] at hc
    by_cases h : n < 10
    · rw [if_pos h, List.mem_singleton] at hc
      subst hc
      exact isDigit_digitChar n h
    · rw [if_neg h, List.mem_append, List.mem_singleton] at hc
      rcases hc with hc | hc
      · exact ih (n / 10) (Nat.div_lt_self (by omega) (by norm_num)) c hc
      · subst hc
        exact isDigit_digitChar _ (Nat.mod_lt _ (by norm_num))

theorem ne_of_isDigit {c d : Char} (hc : isDigit c = true) (hd : isDigit d = false) :
    c ≠ d := by
  intro h
  rw [h, hd] at hc
  exact Bool.noConfusion hc

theorem parseDigitsLoop_append (a b : List Char) (acc : Nat) :
    parseDigitsLoop (a ++ b) acc =
      match parseDigitsLoop a acc with
      | some acc2 => parseDigitsLoop b acc2
      | none => none := by
  induction a generalizing acc with
  | nil => simp [parseDigitsLoop]
  | cons c cs ih =>
    simp only [List.cons_append, parseDigitsLoop]
    by_cases hd : isDigit c
    · simp only [hd, if_true]
      by_cases hb : acc * 10 + (c.toNat - 48) < USIZE
      · simp only [if_pos hb]
        exact ih _
      · simp [hb]
    · simp [hd]

theorem parseDigitsLoop_natToDigits : ∀ n acc : Nat,
    acc * 10 ^ (natToDigits n).length + n < USIZE →
    parseDigitsLoop (natToDigits n) acc =
      some (acc * 10 ^ (natToDigits n).length + n) := by
  intro n
  induction n using Nat.strong_induction_on with
  | _ n ih =>
    intro acc hbound
    by_cases h : n < 10
    · rw [natToDigits_eq, if_pos h] at hbound ⊢
      have hchar := digitChar_toNat n h
      simp only [List.length_singleton, pow_one] at hbound ⊢
      simp only [parseDigitsLoop, isDigit_digitChar n h, if_true, hchar]
      have hsub : 48 + n - 48 = n := by omega
      rw [hsub, if_pos hbound]
    · have hdiv : n / 10 < n := Nat.div_lt_self (by omega) (by norm_num)
      rw [natToDigits_eq, if_neg h] at hbound ⊢
      have hlist : (natToDigits (n / 10) ++ [digitChar (n % 10)]).length
          = (natToDigits (n / 10)).length + 1 := by simp
      rw [hlist] at hbound ⊢
      have hexpand : acc * 10 ^ ((natToDigits (n / 10)).length + 1) + n
          = (acc * 10 ^ (natToDigits (n / 10)).length + n / 10) * 10 + n % 10 := by
        have hmod : 10 * (n / 10) + n % 10 = n := by omega
        calc acc * 10 ^ ((natToDigits (n / 10)).length + 1) + n
            = acc * (10 ^ (natToDigits (n / 10)).length * 10) + (10 * (n / 10) + n % 10) := by
              rw [pow_succ, hmod]
          _ = (acc * 10 ^ (natToDigits (n / 10)).length + n / 10) * 10 + n % 10 := by ring
      rw [hexpand] at hbound ⊢
      have hsmall : acc * 10 ^ (natToDigits (n / 10)).length + n / 10 < USIZE := by omega
      rw [parseDigitsLoop_append, ih (n / 10) hdiv acc hsmall]
      have hmodlt : n % 10 < 10 := Nat.mod_lt _ (by norm_num)
      have hchar := digitChar_toNat (n % 10) hmodlt
      simp only [parseDigitsLoop, isDigit_digitChar _ hmodlt, if_true, hchar]
      have hsub : 48 + n % 10 - 48 = n % 10 := by omega
      rw [hsub, if_pos (by omega)]

theorem parseDigits_cons (c : Char) (cs : List Char) :
    parseDigits (c :: cs) = parseDigitsLoop (c :: cs) 0 := rfl

theorem parseUsize_natToDigits (n : Nat) (h : n < USIZE) :
    parseUsize (natToDigits n) = some n := by
  rcases hd : natToDigits n with _ | ⟨c, cs⟩
  · exact absurd hd (natToDigits_ne_nil n)
  · have hcdig : isDigit c = true := by
      apply isDigit_of_mem_natToDigits n
      rw [hd]
      exact List.mem_cons_self c cs
    have hplus : c ≠ '+' := ne_of_isDigit hcdig (by decide)
    show (if c = '+' then parseDigits cs else parseDigits (c :: cs)) = some n
    rw [if_neg hplus, parseDigits_cons, ← hd]
    have := parseDigitsLoop_natToDigits n 0 (by simpa using h)
    simpa using this

theorem parseDigitsLoop_bound : ∀ s : List Char, ∀ acc v : Nat,
    parseDigitsLoop s acc = some v → acc < USIZE → v < USIZE := by
  intro s
  induction s with
  | nil =>
    intro acc v h hacc
    simp only [parseDigitsLoop, Option.some.injEq] at h
    omega
  | cons c cs ih =>
    intro acc v h hacc
    simp only [parseDigitsLoop] at h
    by_cases hd : isDigit c
    · rw [if_pos hd] at h
      by_cases hb : acc * 10 + (c.toNat - 48) < USIZE
      · rw [if_pos hb] at h
        exact ih _ v h hb
      · rw [if_neg hb] at h
        exact Option.noConfusion h
    · rw [if_neg hd] at h
      exact Option.noConfusion h

theorem parseUsize_bound {s : List Char} {v : Nat} (h : parseUsize s = some v) :
    v < USIZE := by
  rcases s with _ | ⟨c, cs⟩
  · exact Option.noConfusion h
  · show v < USIZE
    by_cases hplus : c = '+' <;>
      simp only [parseUsize, if_pos, if_neg, hplus] at h
    · rcases cs with _ | ⟨d, ds⟩
      · exact Option.noConfusion h
      · exact parseDigitsLoop_bound _ 0 v h (by norm_num [USIZE])
    · exact parseDigitsLoop_bound _ 0 v h (by norm_num [USIZE])

theorem parseDigitsLoop_none_of_mem : ∀ s : List Char, ∀ acc : Nat, ∀ c ∈ s,
    isDigit c = false → parseDigitsLoop s acc = none := by
  intro s
  induction s with
  | nil => intro acc c hc; exact absurd hc (List.not_mem_nil c)
  | cons d ds ih =>
    intro acc c hc hdig
    rcases List.mem_cons.mp hc with rfl | hc
    · simp [parseDigitsLoop, hdig]
    · simp only [parseDigitsLoop]
      by_cases hd : isDigit d
      · simp only [hd, if_true]
        by_cases hb : acc * 10 + (d.toNat - 48) < USIZE
        · rw [if_pos hb]
          exact ih _ c hc hdig
        · rw [if_neg hb]
      · simp [hd]

theorem parseUsize_none_of_mem {s : List Char} {c : Char} (hc : c ∈ s)
    (hdig : isDigit c = false) (hplus : c ≠ '+') : parseUsize s = none := by
  rcases s with _ | ⟨d, ds⟩
  · rfl
  · show (if d = '+' then parseDigits ds else parseDigits (d :: ds)) = none
    rcases List.mem_cons.mp hc with rfl | hc
    · rw [if_neg hplus, parseDigits_cons]
      exact parseDigitsLoop_none_of_mem _ 0 c (List.mem_cons_self c ds) hdig
    · by_cases hd : d = '+'
      · rw [if_pos hd]
        rcases ds with _ | ⟨e, es⟩
        · exact absurd hc (List.not_mem_nil c)
        · exact parseDigitsLoop_none_of_mem _ 0 c hc hdig
      · rw [if_neg hd, parseDigits_cons]
        exact parseDigitsLoop_none_of_mem _ 0 c (List.mem_cons_of_mem d hc) hdig

/-! ## Split and join lemmas -/

theorem splitChar_ne_nil (sep : Char) : ∀ l : List Char, splitChar sep l ≠ [] := by
  intro l
  cases l with
  | nil => simp [splitChar]
  | cons c cs =>
    simp only [splitChar]
    by_cases h : c = sep
    · simp [h]
    · rw [if_neg h]
      rcases hs : splitChar sep cs with _ | ⟨t, ts⟩ <;> simp

theorem splitChar_cons_sep (sep : Char) (l : List Char) :
    splitChar sep (sep :: l) = [] :: splitChar sep l := by
  simp [splitChar]

theorem splitChar_cons_ne {sep c : Char} (h : c ≠ sep) (l : List Char) :
    splitChar sep (c :: l) =
      (c :: (splitChar sep l).headD []) :: (splitChar sep l).tail := by
  simp only [splitChar, if_neg h]
  rcases hs : splitChar sep l with _ | ⟨t, ts⟩
  · exact absurd hs (splitChar_ne_nil sep l)
  · rfl

theorem splitChar_append {sep : Char} : ∀ a l : List Char, (∀ c ∈ a, c ≠ sep) →
    splitChar sep (a ++ l) =
      (a ++ (splitChar sep l).headD []) :: (splitChar sep l).tail := by
  intro a
  induction a with
  | nil =>
    intro l _
    rcases hs : splitChar sep l with _ | ⟨t, ts⟩
    · exact absurd hs (splitChar_ne_nil sep l)
    · simp [hs]
  | cons c cs ih =>
    intro l ha
    have hc : c ≠ sep := ha c (List.mem_cons_self c cs)
    have hcs : ∀ d ∈ cs, d ≠ sep := fun d hd => ha d (List.mem_cons_of_mem c hd)
    rw [List.cons_append, splitChar_cons_ne hc, ih l hcs]
    simp

theorem splitChar_no_sep {sep : Char} (a : List Char) (h : ∀ c ∈ a, c ≠ sep) :
    splitChar sep a = [a] := by
  have := splitChar_append a [] h
  simpa [splitChar] using this

theorem mem_joinChar {sep : Char} : ∀ ps : List (List Char), ∀ c ∈ joinChar sep ps,
    c = sep ∨ ∃ p ∈ ps, c ∈ p := by
  intro ps
  induction ps with
  | nil => intro c hc; exact absurd hc (List.not_mem_nil c)
  | cons p ps ih =>
    intro c hc
    rcases ps with _ | ⟨q, qs⟩
    · exact Or.inr ⟨p, List.mem_cons_self p [], hc⟩
    · rw [show joinChar sep (p :: q :: qs) = p ++ sep :: joinChar sep (q :: qs) from rfl]
        at hc
      rcases List.mem_append.mp hc with hc | hc
      · exact Or.inr ⟨p, by simp, hc⟩
      · rcases List.mem_cons.mp hc with rfl | hc
        · exact Or.inl rfl
        · rcases ih c hc with h | ⟨r, hr, hcr⟩
          · exact Or.inl h
          · exact Or.inr ⟨r, List.mem_cons_of_mem p hr, hcr⟩

theorem splitChar_joinChar {sep : Char} : ∀ ps : List (List Char), ps ≠ [] →
    (∀ p ∈ ps, ∀ c ∈ p, c ≠ sep) → splitChar sep (joinChar sep ps) = ps := by
  intro ps
  induction ps with
  | nil => intro h _; exact absurd rfl h
  | cons p ps ih =>
    intro _ hall
    have hp : ∀ c ∈ p, c ≠ sep := hall p (by simp)
    rcases ps with _ | ⟨q, qs⟩
    · exact splitChar_no_sep p hp
    · show splitChar sep (p ++ sep :: joinChar sep (q :: qs)) = p :: q :: qs
      rw [splitChar_append p _ hp, splitChar_cons_sep,
        ih (by simp) (fun r hr => hall r (List.mem_cons_of_mem p hr))]
      simp

/-! ## Parser soundness: every parse result satisfies Producible -/

theorem UMAX_lt : UMAX < USIZE := by
  unfold UMAX USIZE
  norm_num

theorem goodTransformation_mk {k : Char} {s : TransformationSource} {t : Transformation}
    (hb : sourceBound s) (h : mkTransformation k s = Except.ok t) :
    GoodTransformation t := by
  unfold mkTransformation at h
  by_cases h1 : k = 'r'
  · rw [if_pos h1] at h
    cases h
    simpa [GoodTransformation] using hb
  · rw [if_neg h1] at h
    by_cases h2 : k = 'm'
    · rw [if_pos h2] at h
      cases h
      simpa [GoodTransformation] using hb
    · rw [if_neg h2] at h
      exact Except.noConfusion h

theorem parseTransformation_sound : ∀ piece t,
    parseTransformation piece = Except.ok t → GoodTransformation t := by
  intro piece t h
  unfold parseTransformation at h
  split at h
  · exact Except.noConfusion h
  · rename_i k src
    split at h
    · exact goodTransformation_mk (by simp [sourceBound]) h
    · split at h
      · rename_i v hv
        exact goodTransformation_mk (by simpa [sourceBound] using parseUsize_bound hv) h
      · split at h
        · exact Except.noConfusion h
        · rename_i vc ics hdrop
          split at h
          · rename_i idx hidx
            have hb : idx < USIZE := parseUsize_bound hidx
            by_cases hv1 : vc = 'v'
            · rw [if_pos hv1] at h
              exact goodTransformation_mk (by simpa [sourceBound] using hb) h
            · rw [if_neg hv1] at h
              by_cases hv2 : vc = 'c'
              · rw [if_pos hv2] at h
                exact goodTransformation_mk (by simpa [sourceBound] using hb) h
              · rw [if_neg hv2] at h
                by_cases hv3 : vc = 'h'
                · rw [if_pos hv3] at h
                  exact goodTransformation_mk (by simpa [sourceBound] using hb) h
                · rw [if_neg hv3] at h
                  exact Except.noConfusion h
          · exact Except.noConfusion h

theorem parseShapes_sound : ∀ ss ns, seedPhasesLoop.parseShapes ss = some ns →
    ns.length = ss.length ∧ ∀ n ∈ ns, n < USIZE := by
  intro ss
  induction ss with
  | nil =>
    intro ns h
    simp only [seedPhasesLoop.parseShapes, Option.some.injEq] at h
    subst h
    simp
  | cons s ss ih =>
    intro ns h
    unfold seedPhasesLoop.parseShapes at h
    split at h
    · rename_i v ms hv hms
      cases h
      obtain ⟨hl, hb⟩ := ih ms hms
      refine ⟨by simp [hl], ?_⟩
      intro n hn
      rcases List.mem_cons.mp hn with rfl | hn
      · exact parseUsize_bound hv
      · exact hb n hn
    · exact Option.noConfusion h

theorem seedPhasesLoop_sound : ∀ segs : List (List Char), ∀ seed : Nat,
    ∀ phases : List (List Nat), ∀ seed2 : Nat, ∀ phases2 : List (List Nat),
    seedPhasesLoop segs seed phases = Except.ok (seed2, phases2) →
    seed < USIZE → (seed = UMAX → phases = []) → (∀ p ∈ phases, GoodPhase p) →
    seed2 < USIZE ∧ (seed2 = UMAX → phases2 = []) ∧ ∀ p ∈ phases2, GoodPhase p := by
  intro segs
  induction segs with
  | nil =>
    intro seed phases s2 p2 h h1 h2 h3
    simp only [seedPhasesLoop] at h
    cases h
    exact ⟨h1, h2, h3⟩
  | cons seg rest ih =>
    intro seed phases s2 p2 h h1 h2 h3
    simp only [seedPhasesLoop] at h
    by_cases hs : seed = UMAX
    · rw [if_pos hs] at h
      split at h
      · rename_i v hv
        exact ih v phases s2 p2 h (parseUsize_bound hv) (fun _ => h2 hs) h3
      · exact Except.noConfusion h
    · rw [if_neg hs] at h
      split at h
      · rename_i phase hphase
        refine ih seed (phases ++ [phase]) s2 p2 h h1 (fun hc => absurd hc hs) ?_
        intro p hp2
        rcases List.mem_append.mp hp2 with hp2 | hp2
        · exact h3 p hp2
        · rw [List.mem_singleton] at hp2
          subst hp2
          obtain ⟨hl, hb⟩ := parseShapes_sound _ _ hphase
          refine ⟨?_, hb⟩
          intro hnil
          rw [hnil] at hl
          exact splitChar_ne_nil ',' seg (List.length_eq_zero.mp hl.symm)
      · exact Except.noConfusion h

theorem transformationsLoop_sound : ∀ pieces ts,
    transformationsLoop pieces = Except.ok ts →
    ts.length = pieces.length ∧ ∀ t ∈ ts, GoodTransformation t := by
  intro pieces
  induction pieces with
  | nil =>
    intro ts h
    simp only [transformationsLoop] at h
    cases h
    simp
  | cons p rest ih =>
    intro ts h
    simp only [transformationsLoop] at h
    split at h
    · rename_i t ht
      split at h
      · rename_i ts2 hts2
        cases h
        obtain ⟨hl, hg⟩ := ih ts2 hts2
        refine ⟨by simp [hl], ?_⟩
        intro t2 ht2
        rcases List.mem_cons.mp ht2 with rfl | ht2
        · exact parseTransformation_sound p t2 ht
        · exact hg t2 ht2
      · exact Except.noConfusion h
    · exact Except.noConfusion h

theorem tryFrom_sound : ∀ s c, tryFrom s = Except.ok c → Producible c := by
  intro s c h
  unfold tryFrom at h
  split at h
  · exact Except.noConfusion h
  · exact Except.noConfusion h
  · rename_i head p1 prest
    split at h
    · rename_i sp seed phases hseed
      split at h
      · rename_i ts hts
        cases h
        obtain ⟨hs1, hs2, hs3⟩ := seedPhasesLoop_sound _ _ _ _ _ hseed UMAX_lt
          (fun _ => rfl) (by simp)
        obtain ⟨hl, hg⟩ := transformationsLoop_sound _ _ hts
        refine ⟨hs1, hs2, hs3, ?_, hg⟩
        apply List.ne_nil_of_length_pos
        rw [hl]
        simp
      · exact Except.noConfusion h
    · exact Except.noConfusion h

/-! ## Parser completeness: formatting a producible configuration parses back -/

theorem natToDigits_ne_char {d : Char} (hd : isDigit d = false) (n : Nat) :
    ∀ c ∈ natToDigits n, c ≠ d :=
  fun c hc => ne_of_isDigit (isDigit_of_mem_natToDigits n c hc) hd

theorem parseTransformation_format (k : Char) (s : TransformationSource)
    (hb : sourceBound s) :
    parseTransformation (k :: formatSource s) = mkTransformation k s := by
  cases s with
  | Origin a =>
    cases a with
    | none => rfl
    | some v =>
      have hbv : v < USIZE := by simpa [sourceBound] using hb
      rcases hd : natToDigits v with _ | ⟨c, cs⟩
      · exact absurd hd (natToDigits_ne_nil v)
      · have hp : parseUsize (c :: cs) = some v := by
          rw [← hd]
          exact parseUsize_natToDigits v hbv
        rw [show formatSource (TransformationSource.Origin (some v)) = natToDigits v
          from rfl, hd]
        simp [parseTransformation, hp]
  | Vertex vt =>
    cases vt with
    | Corner i =>
      have hbi : i < USIZE := by simpa [sourceBound] using hb
      rw [show formatSource (TransformationSource.Vertex (VertexType.Corner i))
        = '(' :: (('v' :: natToDigits i) ++ [')']) from rfl]
      have hp : parseUsize ('(' :: 'v' :: (natToDigits i ++ [')'])) = none :=
        parseUsize_none_of_mem (List.mem_cons_self _ _) (by decide) (by decide)
      have hdrop : ('v' :: (natToDigits i ++ [')'])).dropLast = 'v' :: natToDigits i := by
        rw [show 'v' :: (natToDigits i ++ [')']) = ('v' :: natToDigits i) ++ [')'] by simp]
        exact List.dropLast_concat
      simp [parseTransformation, hp, hdrop, parseUsize_natToDigits i hbi]
    | Centre i =>
      have hbi : i < USIZE := by simpa [sourceBound] using hb
      rw [show formatSource (TransformationSource.Vertex (VertexType.Centre i))
        = '(' :: (('c' :: natToDigits i) ++ [')']) from rfl]
      have hp : parseUsize ('(' :: 'c' :: (natToDigits i ++ [')'])) = none :=
        parseUsize_none_of_mem (List.mem_cons_self _ _) (by decide) (by decide)
      have hdrop : ('c' :: (natToDigits i ++ [')'])).dropLast = 'c' :: natToDigits i := by
        rw [show 'c' :: (natToDigits i ++ [')']) = ('c' :: natToDigits i) ++ [')'] by simp]
        exact List.dropLast_concat
      simp [parseTransformation, hp, hdrop, parseUsize_natToDigits i hbi]
    | Edge i =>
      have hbi : i < USIZE := by simpa [sourceBound] using hb
      rw [show formatSource (TransformationSource.Vertex (VertexType.Edge i))
        = '(' :: (('h' :: natToDigits i) ++ [')']) from rfl]
      have hp : parseUsize ('(' :: 'h' :: (natToDigits i ++ [')'])) = none :=
        parseUsize_none_of_mem (List.mem_cons_self _ _) (by decide) (by decide)
      have hdrop : ('h' :: (natToDigits i ++ [')'])).dropLast = 'h' :: natToDigits i := by
        rw [show 'h' :: (natToDigits i ++ [')']) = ('h' :: natToDigits i) ++ [')'] by simp]
        exact List.dropLast_concat
      simp [parseTransformation, hp, hdrop, parseUsize_natToDigits i hbi]

theorem parseTransformation_formatTransformation (t : Transformation)
    (hg : GoodTransformation t) :
    parseTransformation (formatTransformation t) = Except.ok t := by
  cases t with
  | Rotation s =>
    have hb : sourceBound s := by simpa [GoodTransformation] using hg
    rw [show formatTransformation (Transformation.Rotation s) = 'r' :: formatSource s
      from rfl, parseTransformation_format 'r' s hb]
    simp [mkTransformation]
  | Reflection s =>
    have hb : sourceBound s := by simpa [GoodTransformation] using hg
    rw [show formatTransformation (Transformation.Reflection s) = 'm' :: formatSource s
      from rfl, parseTransformation_format 'm' s hb]
    simp [mkTransformation]

theorem mem_formatVertexType (vt : VertexType) : ∀ c ∈ formatVertexType vt,
    c = 'v' ∨ c = 'c' ∨ c = 'h' ∨ isDigit c = true := by
  intro c hc
  cases vt with
  | Corner i =>
    rcases List.mem_cons.mp hc with rfl | hc
    · exact Or.inl rfl
    · exact Or.inr (Or.inr (Or.inr (isDigit_of_mem_natToDigits i c hc)))
  | Centre i =>
    rcases List.mem_cons.mp hc with rfl | hc
    · exact Or.inr (Or.inl rfl)
    · exact Or.inr (Or.inr (Or.inr (isDigit_of_mem_natToDigits i c hc)))
  | Edge i =>
    rcases List.mem_cons.mp hc with rfl | hc
    · exact Or.inr (Or.inr (Or.inl rfl))
    · exact Or.inr (Or.inr (Or.inr (isDigit_of_mem_natToDigits i c hc)))

theorem formatTransformation_ne_slash (t : Transformation) :
    ∀ c ∈ formatTransformation t, c ≠ '/' := by
  have hsource : ∀ s : TransformationSource, ∀ c ∈ formatSource s, c ≠ '/' := by
    intro s c hc
    cases s with
    | Origin a =>
      cases a with
      | none => exact absurd hc (List.not_mem_nil c)
      | some v => exact ne_of_isDigit (isDigit_of_mem_natToDigits v c hc) (by decide)
    | Vertex vt =>
      rcases List.mem_cons.mp hc with rfl | hc
      · decide
      · rcases List.mem_append.mp hc with hc | hc
        · rcases mem_formatVertexType vt c hc with rfl | rfl | rfl | hdig
          · decide
          · decide
          · decide
          · exact ne_of_isDigit hdig (by decide)
        · rw [List.mem_singleton] at hc
          subst hc
          decide
  intro c hc
  cases t with
  | Rotation s =>
    rcases List.mem_cons.mp hc with rfl | hc
    · decide
    · exact hsource s c hc
  | Reflection s =>
    rcases List.mem_cons.mp hc with rfl | hc
    · decide
    · exact hsource s c hc

theorem mem_phaseString {p : List Nat} {c : Char}
    (hc : c ∈ joinChar ',' (p.map natToDigits)) : c = ',' ∨ isDigit c = true := by
  rcases mem_joinChar _ c hc with rfl | ⟨q, hq, hcq⟩
  · exact Or.inl rfl
  · rw [List.mem_map] at hq
    obtain ⟨n, _, rfl⟩ := hq
    exact Or.inr (isDigit_of_mem_natToDigits n c hcq)

theorem parseShapes_format : ∀ p : List Nat, (∀ n ∈ p, n < USIZE) →
    seedPhasesLoop.parseShapes (p.map natToDigits) = some p := by
  intro p
  induction p with
  | nil => intro _; rfl
  | cons n ns ih =>
    intro hb
    simp only [List.map_cons, seedPhasesLoop.parseShapes]
    rw [parseUsize_natToDigits n (hb n (by simp)), ih (fun m hm => hb m (by simp [hm]))]

theorem seedPhasesLoop_format_phases : ∀ ps : List (List Nat), ∀ seed : Nat,
    ∀ acc : List (List Nat), seed ≠ UMAX → (∀ p ∈ ps, GoodPhase p) →
    seedPhasesLoop (ps.map fun p => joinChar ',' (p.map natToDigits)) seed acc
      = Except.ok (seed, acc ++ ps) := by
  intro ps
  induction ps with
  | nil =>
    intro seed acc _ _
    simp [seedPhasesLoop]
  | cons p ps ih =>
    intro seed acc hs hg
    simp only [List.map_cons, seedPhasesLoop, if_neg hs]
    have hsplit : splitChar ',' (joinChar ',' (p.map natToDigits)) = p.map natToDigits := by
      apply splitChar_joinChar
      · simp [(hg p (by simp)).1]
      · intro q hq c hc
        rw [List.mem_map] at hq
        obtain ⟨n, _, rfl⟩ := hq
        exact ne_of_isDigit (isDigit_of_mem_natToDigits n c hc) (by decide)
    rw [hsplit, parseShapes_format p (hg p (by simp)).2]
    show seedPhasesLoop (List.map (fun p => joinChar ',' (List.map natToDigits p)) ps)
      seed (acc ++ [p]) = Except.ok (seed, acc ++ p :: ps)
    rw [ih seed (acc ++ [p]) hs (fun q hq => hg q (by simp [hq]))]
    simp

theorem transformationsLoop_format : ∀ ts : List Transformation,
    (∀ t ∈ ts, GoodTransformation t) →
    transformationsLoop (ts.map formatTransformation) = Except.ok ts := by
  intro ts
  induction ts with
  | nil => intro _; rfl
  | cons t rest ih =>
    intro hg
    simp only [List.map_cons, transformationsLoop]
    rw [parseTransformation_formatTransformation t (hg t (by simp)),
      ih (fun u hu => hg u (by simp [hu]))]

theorem seedPhasesLoop_format_full (seed : Nat) (phases : List (List Nat))
    (hseed : seed < USIZE) (hsent : seed = UMAX → phases = [])
    (hph : ∀ p ∈ phases, GoodPhase p) :
    seedPhasesLoop (splitChar '-'
      (natToDigits seed ++ (if phases.length > 0 then ['-'] else [])
        ++ joinChar '-' (phases.map fun p => joinChar ',' (p.map natToDigits))))
      UMAX [] = Except.ok (seed, phases) := by
  rcases phases with _ | ⟨q, qs⟩
  · have hA : (natToDigits seed
        ++ (if ([] : List (List Nat)).length > 0 then ['-'] else [])
        ++ joinChar '-' (([] : List (List Nat)).map fun p => joinChar ',' (p.map natToDigits)))
        = natToDigits seed := by
      simp [joinChar]
    rw [hA, splitChar_no_sep _ (natToDigits_ne_char (by decide) seed)]
    simp [seedPhasesLoop, parseUsize_natToDigits seed hseed]
  · have hsne : seed ≠ UMAX := fun hc => List.noConfusion (hsent hc)
    have hA : (natToDigits seed ++ (if (q :: qs).length > 0 then ['-'] else [])
        ++ joinChar '-' ((q :: qs).map fun p => joinChar ',' (p.map natToDigits)))
        = natToDigits seed
          ++ '-' :: joinChar '-' ((q :: qs).map fun p => joinChar ',' (p.map natToDigits)) := by
      simp
    have hjoin : splitChar '-'
        (joinChar '-' ((q :: qs).map fun p => joinChar ',' (p.map natToDigits)))
        = (q :: qs).map fun p => joinChar ',' (p.map natToDigits) := by
      apply splitChar_joinChar
      · simp
      · intro q2 hq2 ch hch
        rw [List.mem_map] at hq2
        obtain ⟨p, _, rfl⟩ := hq2
        rcases mem_phaseString hch with rfl | hdig
        · decide
        · exact ne_of_isDigit hdig (by decide)
    rw [hA, splitChar_append _ _ (natToDigits_ne_char (by decide) seed),
      splitChar_cons_sep, hjoin]
    simp only [List.headD_cons, List.tail_cons, List.append_nil, List.map_cons]
    simp only [seedPhasesLoop, if_pos rfl, parseUsize_natToDigits seed hseed]
    have := seedPhasesLoop_format_phases (q :: qs) seed [] hsne hph
    simp only [List.map_cons, List.nil_append] at this
    exact this

theorem tryFrom_format (c : Configuration) (h : Producible c) :
    tryFrom (formatConfiguration c) = Except.ok c := by
  obtain ⟨hseed, hsent, hph, htne, htg⟩ := h
  have hANoSlash : ∀ ch ∈ natToDigits c.seed
      ++ (if c.phases.length > 0 then ['-'] else [])
      ++ joinChar '-' (c.phases.map fun p => joinChar ',' (p.map natToDigits)),
      ch ≠ '/' := by
    intro ch hc
    rcases List.mem_append.mp hc with hc | hc
    · rcases List.mem_append.mp hc with hc | hc
      · exact natToDigits_ne_char (by decide) c.seed ch hc
      · by_cases hl : c.phases.length > 0
        · rw [if_pos hl, List.mem_singleton] at hc
          subst hc
          decide
        · rw [if_neg hl] at hc
          exact absurd hc (List.not_mem_nil ch)
    · rcases mem_joinChar _ ch hc with rfl | ⟨q, hq, hcq⟩
      · decide
      · rw [List.mem_map] at hq
        obtain ⟨p, _, rfl⟩ := hq
        rcases mem_phaseString hcq with rfl | hdig
        · decide
        · exact ne_of_isDigit hdig (by decide)
  rcases hts : c.transformations with _ | ⟨t1, trest⟩
  · exact absurd hts htne
  have hsplit : splitChar '/' (formatConfiguration c)
      = (natToDigits c.seed ++ (if c.phases.length > 0 then ['-'] else [])
          ++ joinChar '-' (c.phases.map fun p => joinChar ',' (p.map natToDigits)))
        :: formatTransformation t1 :: trest.map formatTransformation := by
    unfold formatConfiguration
    rw [splitChar_append _ _ hANoSlash, splitChar_cons_sep]
    have hjoin : splitChar '/' (joinChar '/' (c.transformations.map formatTransformation))
        = c.transformations.map formatTransformation := by
      apply splitChar_joinChar
      · simp [hts]
      · intro q hq ch hch
        rw [List.mem_map] at hq
        obtain ⟨t, _, rfl⟩ := hq
        exact formatTransformation_ne_slash t ch hch
    rw [hjoin, hts, List.map_cons]
    simp
  have htloop : transformationsLoop (formatTransformation t1 :: trest.map formatTransformation)
      = Except.ok c.transformations := by
    rw [show formatTransformation t1 :: trest.map formatTransformation
      = c.transformations.map formatTransformation by rw [hts]; simp]
    exact transformationsLoop_format c.transformations htg
  unfold tryFrom
  rw [hsplit]
  show (match seedPhasesLoop (splitChar '-'
      (natToDigits c.seed ++ (if c.phases.length > 0 then ['-'] else [])
        ++ joinChar '-' (c.phases.map fun p => joinChar ',' (p.map natToDigits))))
      UMAX [] with
    | Except.ok (seed, phases) =>
      match transformationsLoop
          (formatTransformation t1 :: trest.map formatTransformation) with
      | Except.ok ts => Except.ok (⟨seed, phases, ts⟩ : Configuration)
      | Except.error e => Except.error e
    | Except.error e => Except.error e) = Except.ok c
  rw [seedPhasesLoop_format_full c.seed c.phases hseed hsent hph, htloop]

/-! ## Reduction of tryFrom on a seed-3 single-transformation input -/

theorem tryFrom_single_piece (piece : List Char) (hne : '/' ∉ piece) :
    tryFrom ('3' :: '/' :: piece) =
      match parseTransformation piece with
      | Except.ok t => Except.ok ⟨3, [], [t]⟩
      | Except.error e => Except.error e := by
  have hsplit : splitChar '/' ('3' :: '/' :: piece) = [['3'], piece] := by
    rw [splitChar_cons_ne (show ('3' : Char) ≠ '/' by decide), splitChar_cons_sep,
      splitChar_no_sep piece (fun c hc hcs => hne (by rw [← hcs]; exact hc))]
    rfl
  unfold tryFrom
  rw [hsplit]
  show (match seedPhasesLoop (splitChar '-' ['3']) UMAX [] with
    | Except.ok (seed, phases) =>
      match transformationsLoop [piece] with
      | Except.ok ts => Except.ok (⟨seed, phases, ts⟩ : Configuration)
      | Except.error e => Except.error e
    | Except.error e => Except.error e) = _
  rw [show seedPhasesLoop (splitChar '-' ['3']) UMAX [] = Except.ok (3, []) from rfl]
  show (match transformationsLoop [piece] with
    | Except.ok ts => Except.ok (⟨3, [], ts⟩ : Configuration)
    | Except.error e => Except.error e) = _
  cases h : parseTransformation piece with
  | ok t => simp [transformationsLoop, h]
  | error e => simp [transformationsLoop, h]

theorem parseTransformation_bad_kind (k : Char) (rest : List Char)
    (hkr : k ≠ 'r') (hkm : k ≠ 'm')
    (hshape : rest = [] ∨ (∃ v, parseUsize rest = some v) ∨
      ∃ d1 X i d2, (X = 'v' ∨ X = 'c' ∨ X = 'h') ∧ i < USIZE ∧
        rest = d1 :: ((X :: natToDigits i) ++ [d2])) :
    parseTransformation (k :: rest) = Except.error msgUnknownTransformationChar := by
  have hmk : ∀ s, mkTransformation k s = Except.error msgUnknownTransformationChar := by
    intro s
    unfold mkTransformation
    rw [if_neg hkr, if_neg hkm]
  rcases hshape with rfl | ⟨v, hv⟩ | ⟨d1, X, i, d2, hX, hi, rfl⟩
  · rw [show parseTransformation [k]
      = mkTransformation k (TransformationSource.Origin none) from rfl]
    exact hmk _
  · rcases rest with _ | ⟨c, cs⟩
    · exact absurd hv (by simp [parseUsize])
    · simp only [parseTransformation, hv]
      exact hmk _
  · have hXdig : isDigit X = false := by rcases hX with rfl | rfl | rfl <;> decide
    have hXplus : X ≠ '+' := by rcases hX with rfl | rfl | rfl <;> decide
    have hnone : parseUsize (d1 :: ((X :: natToDigits i) ++ [d2])) = none :=
      parseUsize_none_of_mem (by simp) hXdig hXplus
    have hdrop : ((d1 :: ((X :: natToDigits i) ++ [d2])).drop 1).dropLast
        = X :: natToDigits i := by
      simp only [List.drop_succ_cons, List.drop_zero]
      exact List.dropLast_concat
    simp only [parseTransformation, hnone, hdrop, parseUsize_natToDigits i hi]
    rcases hX with rfl | rfl | rfl
    · rw [if_pos rfl]
      exact hmk _
    · rw [if_neg (by decide), if_pos rfl]
      exact hmk _
    · rw [if_neg (by decide), if_neg (by decide), if_pos rfl]
      exact hmk _

theorem parseTransformation_delims (k d1 X d2 : Char) (i : Nat)
    (hX : X = 'v' ∨ X = 'c' ∨ X = 'h') (hi : i < USIZE) :
    parseTransformation (k :: d1 :: ((X :: natToDigits i) ++ [d2]))
      = mkTransformation k (TransformationSource.Vertex
          (if X = 'v' then VertexType.Corner i
           else if X = 'c' then VertexType.Centre i
           else VertexType.Edge i)) := by
  have hXdig : isDigit X = false := by rcases hX with rfl | rfl | rfl <;> decide
  have hXplus : X ≠ '+' := by rcases hX with rfl | rfl | rfl <;> decide
  have hnone : parseUsize (d1 :: ((X :: natToDigits i) ++ [d2])) = none :=
    parseUsize_none_of_mem (by simp) hXdig hXplus
  have hdrop : ((d1 :: ((X :: natToDigits i) ++ [d2])).drop 1).dropLast
      = X :: natToDigits i := by
    simp only [List.drop_succ_cons, List.drop_zero]
    exact List.dropLast_concat
  simp only [parseTransformation, hnone, hdrop, parseUsize_natToDigits i hi]
  rcases hX with rfl | rfl | rfl
  · rw [if_pos rfl, if_pos rfl]
  · rw [if_neg (by decide), if_pos rfl, if_neg (by decide), if_pos rfl]
  · rw [if_neg (by decide), if_neg (by decide), if_pos rfl,
      if_neg (by decide), if_neg (by decide)]

/-! ## Claim theorems for the notation parser and formatter -/

/-- Claim C1: for every Configuration value producible by Parse, formatting
it and parsing the result returns the same value, in particular when the
phase list is empty. -/
theorem claim1_parse_format_roundtrip (s : List Char) (c : Configuration)
    (h : tryFrom s = Except.ok c) :
    tryFrom (formatConfiguration c) = Except.ok c :=
  tryFrom_format c (tryFrom_sound s c h)

/-- Claim C5: the Display output of the scenario-C configuration is the
exact expected string. -/
theorem claim5_format_scenario :
    formatConfiguration ⟨6, [[3, 0, 3, 3, 3, 3]],
      [Transformation.Rotation (TransformationSource.Vertex (VertexType.Edge 4)),
       Transformation.Rotation (TransformationSource.Vertex (VertexType.Corner 15)),
       Transformation.Rotation (TransformationSource.Vertex (VertexType.Corner 30))]⟩
      = ("6-3,0,3,3,3,3/r(h4)/r(v15)/r(v30)").toList := rfl

/-- Claim C4 counterexample: the input has at least two slash pieces, a
valid seed segment, and a transformation piece whose first character is
neither r nor m, yet Parse fails with the vertex-type error, not the
transformation-character error the claim requires. -/
theorem claim4_counterexample :
    tryFrom (("3/x(q2)").toList) = Except.error msgUnknownVertexTypeChar ∧
      msgUnknownVertexTypeChar ≠ msgUnknownTransformationChar :=
  ⟨rfl, by decide⟩

/-- Claim C4 amended: with a transformation piece whose first character is
neither r nor m, Parse fails with the transformation-character error when
the remainder is empty, numeric, or a well-formed delimited vertex
specifier; a malformed vertex specifier makes a vertex-spec error take
precedence instead. -/
theorem claim4_amended (k : Char) (rest : List Char)
    (hkr : k ≠ 'r') (hkm : k ≠ 'm') (hslash : '/' ∉ k :: rest)
    (hshape : rest = [] ∨ (∃ v, parseUsize rest = some v) ∨
      ∃ d1 X i d2, (X = 'v' ∨ X = 'c' ∨ X = 'h') ∧ i < USIZE ∧
        rest = d1 :: ((X :: natToDigits i) ++ [d2])) :
    tryFrom ('3' :: '/' :: k :: rest) = Except.error msgUnknownTransformationChar := by
  rw [tryFrom_single_piece (k :: rest) hslash,
    parseTransformation_bad_kind k rest hkr hkm hshape]

/-- Claim C9: the parser strips the first and last character of a
non-numeric transformation source without checking that they are
parentheses, so any non-slash delimiter characters are accepted and the
vertex transformation selected by the feature letter is produced. -/
theorem claim9_unverified_delimiters (k d1 X d2 : Char) (i : Nat)
    (hk : k = 'r' ∨ k = 'm') (hX : X = 'v' ∨ X = 'c' ∨ X = 'h')
    (hi : i < USIZE) (hd1 : d1 ≠ '/') (hd2 : d2 ≠ '/') :
    ∃ t : Transformation,
      tryFrom ('3' :: '/' :: k :: d1 :: ((X :: natToDigits i) ++ [d2]))
        = Except.ok ⟨3, [], [t]⟩ ∧
      mkTransformation k (TransformationSource.Vertex
        (if X = 'v' then VertexType.Corner i
         else if X = 'c' then VertexType.Centre i
         else VertexType.Edge i)) = Except.ok t := by
  have hslash : '/' ∉ k :: d1 :: ((X :: natToDigits i) ++ [d2]) := by
    intro hmem
    rcases List.mem_cons.mp hmem with hk2 | hmem
    · rcases hk with rfl | rfl <;> exact absurd hk2.symm (by decide)
    rcases List.mem_cons.mp hmem with hd | hmem
    · exact hd1 hd.symm
    rcases List.mem_append.mp hmem with hmem | hmem
    · rcases List.mem_cons.mp hmem with hX2 | hmem
      · rcases hX with rfl | rfl | rfl <;> exact absurd hX2.symm (by decide)
      · exact natToDigits_ne_char (by decide) i '/' hmem rfl
    · rw [List.mem_singleton] at hmem
      exact hd2 hmem.symm
  have hpt := parseTransformation_delims k d1 X d2 i hX hi
  rcases hk with rfl | rfl
  · refine ⟨Transformation.Rotation (TransformationSource.Vertex
      (if X = 'v' then VertexType.Corner i
       else if X = 'c' then VertexType.Centre i
       else VertexType.Edge i)), ?_, rfl⟩
    rw [tryFrom_single_piece _ hslash, hpt]
    rfl
  · refine ⟨Transformation.Reflection (TransformationSource.Vertex
      (if X = 'v' then VertexType.Corner i
       else if X = 'c' then VertexType.Centre i
       else VertexType.Edge i)), ?_, rfl⟩
    rw [tryFrom_single_piece _ hslash, hpt]
    rfl

/-! ## Component equations for the Vec2 operator instances -/

theorem Vec2.add_def (v w : Vec2) : v + w = ⟨v.x + w.x, v.y + w.y⟩ := rfl

theorem Vec2.sub_def (v w : Vec2) : v - w = ⟨v.x - w.x, v.y - w.y⟩ := rfl

theorem Vec2.mul_def (v : Vec2) (r : ℝ) : v * r = ⟨v.x * r, v.y * r⟩ := rfl

theorem Vec2.div_def (v : Vec2) (r : ℝ) : v / r = ⟨v.x / r, v.y / r⟩ := rfl

/-! ## Claim theorems for the lattice generator -/

/-- Claim C2, divergence at the failing input: for the configuration with
seed 3 and no phases, generate succeeds with an empty tile list, so there
is no seed tile at index 0 (the source generator never constructs the seed
tile; create_seed_tile is dead code). -/
theorem claim2_no_seed_tile :
    ∃ lat : Lattice,
      generate ⟨3, [], [Transformation.Rotation (TransformationSource.Origin none)]⟩ 0
        = some lat ∧ lat.tiles = [] :=
  ⟨⟨[], []⟩, rfl, rfl⟩

/-- Claim C3, divergence at the failing input: with an unsupported order 5
in a phase, generate panics (the expect call on the Err of create_tile)
instead of returning a discriminated failure; its return type has no
failure channel at all. -/
theorem claim3_generate_panics :
    generate ⟨3, [[5]], [Transformation.Rotation (TransformationSource.Origin none)]⟩ 0
      = none := rfl

theorem generate_connectivity_nil (config : Configuration) (iterations : Nat)
    (lat : Lattice) (h : generate config iterations = some lat) :
    lat.connectivity = [] := by
  unfold generate at h
  split at h
  · cases h
    rfl
  · exact Option.noConfusion h

/-- Claim C6: every lattice that generate returns has symmetric
connectivity (the source always returns an empty connectivity table, which
is vacuously symmetric). -/
theorem claim6_connectivity_symmetric (config : Configuration) (iterations : Nat)
    (lat : Lattice) (h : generate config iterations = some lat) :
    SymmetricConnectivity lat.connectivity := by
  intro i j hj
  rw [generate_connectivity_nil config iterations lat h] at hj
  simp [List.getD] at hj

/-- Witness for claim C6 at a concrete configuration. -/
theorem claim6_witness :
    generate ⟨3, [], [Transformation.Rotation (TransformationSource.Origin none)]⟩ 0
        = some ⟨[], []⟩ ∧
      SymmetricConnectivity (Lattice.mk [] []).connectivity :=
  ⟨rfl, claim6_connectivity_symmetric
    ⟨3, [], [Transformation.Rotation (TransformationSource.Origin none)]⟩ 0 ⟨[], []⟩ rfl⟩

/-! ## Claim theorems for lerp and edges -/

/-- Claim C8: in lerp the start argument cancels, so lerp start stop p is
stop scaled by p; hence the centre of a segment is its second endpoint
halved, which equals the midpoint exactly when the start is the zero
vector. -/
theorem claim8_lerp_cancels :
    (∀ (start stop : Vec2) (p : ℝ), lerp start stop p = stop * p) ∧
    (∀ seg : LineSegment2, seg.centre = seg.stop * RealConst.HALF) ∧
    (∀ seg : LineSegment2,
      seg.centre = (seg.start + seg.stop) / (2 : ℝ) ↔ seg.start = Vec2.zero) := by
  have hlerp : ∀ (start stop : Vec2) (p : ℝ), lerp start stop p = stop * p := by
    intro s e p
    show (s + (e - s)) * p = e * p
    ext <;> simp [Vec2.add_def, Vec2.sub_def, Vec2.mul_def]
  have hcentre : ∀ seg : LineSegment2, seg.centre = seg.stop * RealConst.HALF :=
    fun seg => hlerp seg.start seg.stop RealConst.HALF
  refine ⟨hlerp, hcentre, ?_⟩
  intro seg
  rw [hcentre seg]
  constructor
  · intro h
    have hx := congrArg Vec2.x h
    have hy := congrArg Vec2.y h
    simp only [Vec2.mul_def, Vec2.div_def, Vec2.add_def, RealConst.HALF] at hx hy
    ext
    · show seg.start.x = (0 : ℝ)
      norm_num at hx
      linarith
    · show seg.start.y = (0 : ℝ)
      norm_num at hy
      linarith
  · intro h
    rw [h]
    ext
    · show seg.stop.x * RealConst.HALF = (Vec2.zero.x + seg.stop.x) / 2
      unfold RealConst.HALF Vec2.zero
      norm_num
      ring
    · show seg.stop.y * RealConst.HALF = (Vec2.zero.y + seg.stop.y) / 2
      unfold RealConst.HALF Vec2.zero
      norm_num
      ring

/-- Claim C10: edges returns exactly one line segment per consecutive
vertex pair, in order, and omits the closing segment from the last vertex
back to the first. -/
theorem claim10_edges (p : Poly2) (h : 1 ≤ p.vertices.length) :
    p.edges.length = p.vertices.length - 1 ∧
    ∀ i, i < p.vertices.length - 1 →
      p.edges.getD i (LineSegment2.new Vec2.zero Vec2.zero)
        = LineSegment2.new (p.vertices.getD i Vec2.zero)
            (p.vertices.getD (i + 1) Vec2.zero) := by
  constructor
  · simp [Poly2.edges]
  · intro i hi
    unfold Poly2.edges
    rw [List.getD_eq_getElem?_getD, List.getElem?_map, List.getElem?_range hi]
    rfl

/-! ## Geometry of Poly2 regular (claim C7) -/

theorem whileIterations_regular (n : ℕ) (hn : 1 ≤ n) :
    whileIterations (RealConst.TWO * RealConst.PI / (n : ℝ))
      (RealConst.TAU * (1 - 1 / (n : ℝ) / RealConst.TWO)) = n := by
  have hnR : (0 : ℝ) < n := by
    have : (1 : ℝ) ≤ n := by exact_mod_cast hn
    linarith
  have hn0 : (n : ℝ) ≠ 0 := ne_of_gt hnR
  have hpi := Real.pi_pos
  have hlim : RealConst.TAU * (1 - 1 / (n : ℝ) / RealConst.TWO)
      = 2 * Real.pi - Real.pi / n := by
    unfold RealConst.TAU RealConst.TWO
    field_simp
    ring
  have hkey : ∀ m : ℕ,
      ((m : ℝ) * (RealConst.TWO * RealConst.PI / (n : ℝ))
        < RealConst.TAU * (1 - 1 / (n : ℝ) / RealConst.TWO)) ↔ m < n := by
    intro m
    rw [hlim]
    unfold RealConst.TWO RealConst.PI
    rw [show (m : ℝ) * (2 * Real.pi / n) = 2 * Real.pi * m / n by ring,
      div_lt_iff hnR, show (2 * Real.pi - Real.pi / n) * n = 2 * Real.pi * n - Real.pi by
        field_simp]
    constructor
    · intro h
      by_contra hge
      push_neg at hge
      have : (n : ℝ) ≤ m := by exact_mod_cast hge
      nlinarith
    · intro h
      have : (m : ℝ) + 1 ≤ n := by exact_mod_cast h
      nlinarith
  have hex : ∃ m : ℕ, ¬ ((m : ℝ) * (RealConst.TWO * RealConst.PI / (n : ℝ))
      < RealConst.TAU * (1 - 1 / (n : ℝ) / RealConst.TWO)) :=
    ⟨n, by rw [hkey n]; omega⟩
  unfold whileIterations
  rw [dif_pos hex, Nat.find_eq_iff hex]
  constructor
  · rw [hkey n]
    omega
  · intro m hm
    rw [not_not, hkey m]
    exact hm

theorem sum_cos_sin_range (n : ℕ) (hn : 2 ≤ n) :
    (∑ k in Finset.range n, Real.cos (k * (2 * Real.pi / n)) = 0) ∧
    (∑ k in Finset.range n, Real.sin (k * (2 * Real.pi / n)) = 0) := by
  have hnR : (0 : ℝ) < n := by positivity
  have hn0 : (n : ℝ) ≠ 0 := ne_of_gt hnR
  set θ : ℝ := 2 * Real.pi / n with hθ
  have hθpos : 0 < θ := by
    rw [hθ]
    positivity
  set z : ℂ := Complex.exp (θ * Complex.I) with hz
  have hnC : (n : ℂ) ≠ 0 := Nat.cast_ne_zero.mpr (by omega)
  have hzne : z ≠ 1 := by
    rw [hz]
    intro hone
    rw [Complex.exp_eq_one_iff] at hone
    rcases hone with ⟨m, hm⟩
    have hI : (Complex.I : ℂ) ≠ 0 := Complex.I_ne_zero
    have hm2 : (θ : ℂ) = (m : ℂ) * (2 * Real.pi) := by
      apply mul_right_cancel₀ hI
      rw [hm]
      ring
    have hm3 : θ = (m : ℝ) * (2 * Real.pi) := by exact_mod_cast hm2
    have hpi := Real.pi_pos
    have hθle : θ ≤ Real.pi := by
      rw [hθ]
      rw [div_le_iff hnR]
      have h2 : (2 : ℝ) ≤ n := by exact_mod_cast hn
      nlinarith
    rcases le_or_lt (m : ℝ) 0 with hm4 | hm4
    · nlinarith
    · have hm5 : (0 : ℤ) < m := by exact_mod_cast hm4
      have : (1 : ℝ) ≤ (m : ℝ) := by exact_mod_cast hm5
      nlinarith
  have hzn : z ^ n = 1 := by
    rw [hz, ← Complex.exp_nat_mul]
    rw [show (n : ℂ) * (↑θ * Complex.I) = 2 * Real.pi * Complex.I by
      rw [hθ]
      push_cast
      field_simp]
    exact Complex.exp_two_pi_mul_I
  have hsum : ∑ k in Finset.range n, z ^ k = 0 := by
    rw [geom_sum_eq hzne n, hzn]
    simp
  have hzk : ∀ k : ℕ,
      z ^ k = (Real.cos (k * θ) : ℝ) + (Real.sin (k * θ) : ℝ) * Complex.I := by
    intro k
    rw [hz, ← Complex.exp_nat_mul]
    rw [show (k : ℂ) * (↑θ * Complex.I) = ((k * θ : ℝ) : ℂ) * Complex.I by
      push_cast
      ring]
    rw [Complex.exp_mul_I, ← Complex.ofReal_cos, ← Complex.ofReal_sin]
  constructor
  · have h := congrArg Complex.re hsum
    rw [Complex.re_sum] at h
    simp only [hzk, Complex.add_re, Complex.ofReal_re, Complex.mul_re, Complex.I_re,
      Complex.I_im, Complex.ofReal_im, mul_zero, mul_one, zero_sub, sub_zero] at h
    simpa using h
  · have h := congrArg Complex.im hsum
    rw [Complex.im_sum] at h
    simp only [hzk, Complex.add_im, Complex.ofReal_im, Complex.mul_im, Complex.I_re,
      Complex.I_im, Complex.ofReal_re, mul_zero, mul_one, zero_add, add_zero] at h
    simpa using h

theorem unit_mul_x (a r : ℝ) : (Vec2.unit a * r).x = Real.cos a * r := rfl

theorem unit_mul_y (a r : ℝ) : (Vec2.unit a * r).y = Real.sin a * r := rfl

theorem filterDup_of_chain : ∀ (l : List Vec2) (prev : Vec2),
    List.Chain (· ≠ ·) prev l → filterDup prev l = l := by
  intro l
  induction l with
  | nil => intro prev _; rfl
  | cons v rest ih =>
    intro prev hch
    rw [List.chain_cons] at hch
    unfold filterDup
    rw [if_neg (fun h => hch.1 h.symm), ih v hch.2]

theorem Poly2.new_of_chain (l : List Vec2) (h3 : 3 ≤ l.length)
    (hch : List.Chain' (· ≠ ·) l) : Poly2.new l = some ⟨l⟩ := by
  rcases l with _ | ⟨v0, rest⟩
  · simp at h3
  · have hlen : ¬ (v0 :: rest).length ≤ 2 := by
      simp only [List.length_cons] at h3 ⊢
      omega
    unfold Poly2.new
    rw [if_neg hlen]
    have hfd : filterDup v0 rest = rest := filterDup_of_chain rest v0 hch
    show (if (v0 :: filterDup v0 rest).length ≤ 2 then none
      else some (Poly2.mk (v0 :: filterDup v0 rest))) = some (Poly2.mk (v0 :: rest))
    rw [hfd, if_neg hlen]

theorem chain'_range_map (f : ℕ → Vec2) (n : ℕ)
    (h : ∀ i, i + 1 < n → f i ≠ f (i + 1)) :
    List.Chain' (· ≠ ·) ((List.range n).map f) := by
  rw [List.chain'_iff_get]
  intro i hi
  simp only [List.length_map, List.length_range] at hi
  simp only [List.get_eq_getElem, List.getElem_map, List.getElem_range]
  exact h i (by omega)

theorem regular_vertices_step_ne (n : ℕ) (s : ℝ) (h3 : 3 ≤ n) (hs : 0 < s) :
    ∀ i, i + 1 < n →
      Vec2.unit ((i : ℝ) * (RealConst.TWO * RealConst.PI / (n : ℝ)))
          * (s * RealConst.HALF / Real.sin (RealConst.PI / (n : ℝ)))
        ≠ Vec2.unit (((i + 1 : ℕ) : ℝ) * (RealConst.TWO * RealConst.PI / (n : ℝ)))
          * (s * RealConst.HALF / Real.sin (RealConst.PI / (n : ℝ))) := by
  intro i hi heq
  have hnR : (0 : ℝ) < n := Nat.cast_pos.mpr (by omega)
  have hn1 : (1 : ℝ) < n := by
    have : (3 : ℝ) ≤ n := by exact_mod_cast h3
    linarith
  have hpi := Real.pi_pos
  have hsinpos : 0 < Real.sin (RealConst.PI / (n : ℝ)) := by
    unfold RealConst.PI
    apply Real.sin_pos_of_pos_of_lt_pi
    · positivity
    · rw [div_lt_iff hnR]
      nlinarith
  have hrpos : 0 < s * RealConst.HALF / Real.sin (RealConst.PI / (n : ℝ)) := by
    apply div_pos _ hsinpos
    apply mul_pos hs
    unfold RealConst.HALF
    norm_num
  have hr : s * RealConst.HALF / Real.sin (RealConst.PI / (n : ℝ)) ≠ 0 := ne_of_gt hrpos
  have hx := congrArg Vec2.x heq
  have hy := congrArg Vec2.y heq
  rw [unit_mul_x, unit_mul_x] at hx
  rw [unit_mul_y, unit_mul_y] at hy
  have hcos := mul_right_cancel₀ hr hx
  have hsin := mul_right_cancel₀ hr hy
  have hθpos : 0 < RealConst.TWO * RealConst.PI / (n : ℝ) := by
    unfold RealConst.TWO RealConst.PI
    positivity
  have hθlt : RealConst.TWO * RealConst.PI / (n : ℝ) < 2 * Real.pi := by
    unfold RealConst.TWO RealConst.PI
    exact div_lt_self (by positivity) hn1
  have hkey : Real.cos (RealConst.TWO * RealConst.PI / (n : ℝ)) = 1 := by
    rw [show RealConst.TWO * RealConst.PI / (n : ℝ)
        = ((i + 1 : ℕ) : ℝ) * (RealConst.TWO * RealConst.PI / (n : ℝ))
          - (i : ℝ) * (RealConst.TWO * RealConst.PI / (n : ℝ)) by
      push_cast
      ring]
    rw [Real.cos_sub, ← hcos, ← hsin]
    nlinarith [Real.sin_sq_add_cos_sq ((i : ℝ)
      * (RealConst.TWO * RealConst.PI / (n : ℝ)))]
  rw [Real.cos_eq_one_iff_of_lt_of_lt (by linarith) hθlt] at hkey
  linarith

theorem regular_eq (n : ℕ) (s : ℝ) (h3 : 3 ≤ n) (hs : 0 < s) :
    Poly2.regular n s = some ⟨(List.range n).map (fun k : ℕ =>
      Vec2.unit ((k : ℝ) * (RealConst.TWO * RealConst.PI / (n : ℝ)))
        * (s * RealConst.HALF / Real.sin (RealConst.PI / (n : ℝ))))⟩ := by
  unfold Poly2.regular
  rw [if_neg (by omega), if_neg (not_le.mpr hs)]
  show Poly2.new ((List.range (whileIterations
      (RealConst.TWO * RealConst.PI / (n : ℝ))
      (RealConst.TAU * (1 - 1 / (n : ℝ) / RealConst.TWO)))).map fun k : ℕ =>
        Vec2.unit ((k : ℝ) * (RealConst.TWO * RealConst.PI / (n : ℝ)))
          * (s * RealConst.HALF / Real.sin (RealConst.PI / (n : ℝ)))) = _
  rw [whileIterations_regular n (by omega)]
  exact Poly2.new_of_chain
    ((List.range n).map (fun k : ℕ =>
      Vec2.unit ((k : ℝ) * (RealConst.TWO * RealConst.PI / (n : ℝ)))
        * (s * RealConst.HALF / Real.sin (RealConst.PI / (n : ℝ)))))
    (by rw [List.length_map, List.length_range]; exact h3)
    (chain'_range_map _ n (by
      intro i hi
      exact_mod_cast regular_vertices_step_ne n s h3 hs i hi))

theorem sum_cyclic_shift (n : ℕ) (hn : 1 ≤ n) (g : ℕ → ℝ) :
    ∑ i in Finset.range n, g ((i + 1) % n) = ∑ i in Finset.range n, g i := by
  rcases n with _ | m
  · omega
  · rw [Finset.sum_range_succ, Finset.sum_range_succ' (fun i => g i) m]
    congr 1
    · apply Finset.sum_congr rfl
      intro i hi
      rw [Finset.mem_range] at hi
      rw [Nat.mod_eq_of_lt (by omega)]
    · rw [Nat.mod_self]

theorem foldl_vec_x : ∀ (l : List Vec2) (init : Vec2),
    (l.foldl (· + ·) init).x = init.x + (l.map Vec2.x).sum := by
  intro l
  induction l with
  | nil =>
    intro init
    simp
  | cons v rest ih =>
    intro init
    rw [List.foldl_cons, ih (init + v), List.map_cons, List.sum_cons, Vec2.add_def]
    ring

theorem foldl_vec_y : ∀ (l : List Vec2) (init : Vec2),
    (l.foldl (· + ·) init).y = init.y + (l.map Vec2.y).sum := by
  intro l
  induction l with
  | nil =>
    intro init
    simp
  | cons v rest ih =>
    intro init
    rw [List.foldl_cons, ih (init + v), List.map_cons, List.sum_cons, Vec2.add_def]
    ring

theorem sum_map_range_eq (f : ℕ → ℝ) (n : ℕ) :
    ((List.range n).map f).sum = ∑ i in Finset.range n, f i := rfl

theorem centroid_regular_eq_zero (n : ℕ) (s : ℝ) (h3 : 3 ≤ n) (hs : 0 < s) :
    Poly2.centroid ⟨(List.range n).map (fun k : ℕ =>
      Vec2.unit ((k : ℝ) * (RealConst.TWO * RealConst.PI / (n : ℝ)))
        * (s * RealConst.HALF / Real.sin (RealConst.PI / (n : ℝ))))⟩ = Vec2.zero := by
  have hnR : (0 : ℝ) < n := Nat.cast_pos.mpr (by omega)
  have hn0 : (n : ℝ) ≠ 0 := ne_of_gt hnR
  set θ : ℝ := RealConst.TWO * RealConst.PI / (n : ℝ) with hθdef
  set r : ℝ := s * RealConst.HALF / Real.sin (RealConst.PI / (n : ℝ)) with hrdef
  set l : List Vec2 := (List.range n).map (fun k : ℕ => Vec2.unit ((k : ℝ) * θ) * r)
    with hldef
  have hlen : l.length = n := by
    rw [hldef, List.length_map, List.length_range]
  have hθeq : θ = 2 * Real.pi / (n : ℝ) := by
    rw [hθdef]
    unfold RealConst.TWO RealConst.PI
    rfl
  have hnθ : (n : ℝ) * θ = 2 * Real.pi := by
    rw [hθeq]
    field_simp
  have hgd : ∀ j, j < n → l.getD j Vec2.zero = Vec2.unit ((j : ℝ) * θ) * r := by
    intro j hj
    rw [hldef, List.getD_eq_getElem?_getD, List.getElem?_map, List.getElem?_range hj]
    rfl
  have hcrossval : ∀ i, i < n →
      Vec2.cross (l.getD (i % n) Vec2.zero) (l.getD ((i + 1) % n) Vec2.zero)
        = r ^ 2 * Real.sin θ := by
    intro i hi
    have hi' : i % n = i := Nat.mod_eq_of_lt hi
    rcases Nat.lt_or_ge (i + 1) n with hlt | hge
    · rw [hi', Nat.mod_eq_of_lt hlt, hgd i hi, hgd (i + 1) hlt]
      unfold Vec2.cross
      rw [unit_mul_x, unit_mul_x, unit_mul_y, unit_mul_y]
      rw [show ((i + 1 : ℕ) : ℝ) * θ = (i : ℝ) * θ + θ by push_cast; ring]
      rw [Real.sin_add, Real.cos_add]
      linear_combination (r ^ 2 * Real.sin θ) * Real.sin_sq_add_cos_sq ((i : ℝ) * θ)
    · have heq : i + 1 = n := by omega
      rw [hi', heq, Nat.mod_self, hgd i hi, hgd 0 (by omega)]
      have hiθ : (i : ℝ) * θ = 2 * Real.pi - θ := by
        have hci : (i : ℝ) = (n : ℝ) - 1 := by
          have hcast : ((i + 1 : ℕ) : ℝ) = (n : ℝ) := by exact_mod_cast congrArg Nat.cast heq
          push_cast at hcast
          linarith
        rw [hci, sub_mul, one_mul, hnθ]
      unfold Vec2.cross
      rw [unit_mul_x, unit_mul_x, unit_mul_y, unit_mul_y]
      rw [show ((0 : ℕ) : ℝ) * θ = 0 by push_cast; ring]
      rw [hiθ, Real.sin_zero, Real.cos_zero, Real.sin_sub, Real.sin_two_pi,
        Real.cos_two_pi]
      ring
  have hcgetD : ∀ i, i < n →
      ((List.range n).map (fun i => Vec2.cross (l.getD (i % n) Vec2.zero)
        (l.getD ((i + 1) % n) Vec2.zero))).getD i 0 = r ^ 2 * Real.sin θ := by
    intro i hi
    rw [List.getD_eq_getElem?_getD, List.getElem?_map, List.getElem?_range hi]
    simp only [Option.map_some', Option.getD_some]
    exact hcrossval i hi
  have hsum := sum_cos_sin_range n (by omega)
  have hsumcos : ∑ k in Finset.range n, Real.cos ((k : ℝ) * θ) = 0 := by
    rw [hθeq]
    exact hsum.1
  have hsumsin : ∑ k in Finset.range n, Real.sin ((k : ℝ) * θ) = 0 := by
    rw [hθeq]
    exact hsum.2
  have hsumcos2 : ∑ i in Finset.range n,
      Real.cos ((((i + 1) % n : ℕ) : ℝ) * θ) = 0 := by
    rw [sum_cyclic_shift n (by omega) (fun k => Real.cos ((k : ℝ) * θ))]
    exact hsumcos
  have hsumsin2 : ∑ i in Finset.range n,
      Real.sin ((((i + 1) % n : ℕ) : ℝ) * θ) = 0 := by
    rw [sum_cyclic_shift n (by omega) (fun k => Real.sin ((k : ℝ) * θ))]
    exact hsumsin
  show Poly2.centroid ⟨l⟩ = Vec2.zero
  show (if l.length = 0 then Vec2.zero
    else if l.length = 1 then l.headD Vec2.zero
    else
      ((List.range l.length).map (fun i =>
        (l.getD (i % l.length) Vec2.zero + l.getD ((i + 1) % l.length) Vec2.zero)
          * ((List.range l.length).map (fun i =>
              Vec2.cross (l.getD (i % l.length) Vec2.zero)
                (l.getD ((i + 1) % l.length) Vec2.zero))).getD i 0)).foldl
        (· + ·) Vec2.zero
        / ((List.range l.length).map (fun i =>
            Vec2.cross (l.getD (i % l.length) Vec2.zero)
              (l.getD ((i + 1) % l.length) Vec2.zero))).foldl (· + ·) 0
        / RealConst.THREE) = Vec2.zero
  rw [hlen]
  rw [if_neg (by omega), if_neg (by omega)]
  have hnum : ((List.range n).map (fun i =>
      (l.getD (i % n) Vec2.zero + l.getD ((i + 1) % n) Vec2.zero)
        * ((List.range n).map (fun i => Vec2.cross (l.getD (i % n) Vec2.zero)
            (l.getD ((i + 1) % n) Vec2.zero))).getD i 0)).foldl (· + ·) Vec2.zero
      = Vec2.zero := by
    have hterm_x : ∀ i ∈ Finset.range n,
        (Vec2.x ∘ fun i =>
          (l.getD (i % n) Vec2.zero + l.getD ((i + 1) % n) Vec2.zero)
            * ((List.range n).map (fun i => Vec2.cross (l.getD (i % n) Vec2.zero)
                (l.getD ((i + 1) % n) Vec2.zero))).getD i 0) i
          = Real.cos ((i : ℝ) * θ) * r * (r ^ 2 * Real.sin θ)
            + Real.cos ((((i + 1) % n : ℕ) : ℝ) * θ) * r * (r ^ 2 * Real.sin θ) := by
      intro i hi
      rw [Finset.mem_range] at hi
      have h2 : (i + 1) % n < n := Nat.mod_lt _ (by omega)
      simp only [Function.comp]
      rw [hcgetD i hi, hgd ((i + 1) % n) h2]
      rw [show i % n = i from Nat.mod_eq_of_lt hi, hgd i hi]
      show (Real.cos ((i : ℝ) * θ) * r + Real.cos ((((i + 1) % n : ℕ) : ℝ) * θ) * r)
          * (r ^ 2 * Real.sin θ) = _
      ring
    have hterm_y : ∀ i ∈ Finset.range n,
        (Vec2.y ∘ fun i =>
          (l.getD (i % n) Vec2.zero + l.getD ((i + 1) % n) Vec2.zero)
            * ((List.range n).map (fun i => Vec2.cross (l.getD (i % n) Vec2.zero)
                (l.getD ((i + 1) % n) Vec2.zero))).getD i 0) i
          = Real.sin ((i : ℝ) * θ) * r * (r ^ 2 * Real.sin θ)
            + Real.sin ((((i + 1) % n : ℕ) : ℝ) * θ) * r * (r ^ 2 * Real.sin θ) := by
      intro i hi
      rw [Finset.mem_range] at hi
      have h2 : (i + 1) % n < n := Nat.mod_lt _ (by omega)
      simp only [Function.comp]
      rw [hcgetD i hi, hgd ((i + 1) % n) h2]
      rw [show i % n = i from Nat.mod_eq_of_lt hi, hgd i hi]
      show (Real.sin ((i : ℝ) * θ) * r + Real.sin ((((i + 1) % n : ℕ) : ℝ) * θ) * r)
          * (r ^ 2 * Real.sin θ) = _
      ring
    ext
    · rw [foldl_vec_x, List.map_map, sum_map_range_eq]
      rw [Finset.sum_congr rfl hterm_x, Finset.sum_add_distrib]
      rw [← Finset.sum_mul, ← Finset.sum_mul, ← Finset.sum_mul, ← Finset.sum_mul]
      rw [hsumcos, hsumcos2]
      show Vec2.zero.x + (0 * r * (r ^ 2 * Real.sin θ)
        + 0 * r * (r ^ 2 * Real.sin θ)) = Vec2.zero.x
      ring
    · rw [foldl_vec_y, List.map_map, sum_map_range_eq]
      rw [Finset.sum_congr rfl hterm_y, Finset.sum_add_distrib]
      rw [← Finset.sum_mul, ← Finset.sum_mul, ← Finset.sum_mul, ← Finset.sum_mul]
      rw [hsumsin, hsumsin2]
      show Vec2.zero.y + (0 * r * (r ^ 2 * Real.sin θ)
        + 0 * r * (r ^ 2 * Real.sin θ)) = Vec2.zero.y
      ring
  rw [hnum]
  ext
  · show Vec2.zero.x / _ / RealConst.THREE = Vec2.zero.x
    show (0 : ℝ) / _ / RealConst.THREE = (0 : ℝ)
    rw [zero_div, zero_div]
  · show Vec2.zero.y / _ / RealConst.THREE = Vec2.zero.y
    show (0 : ℝ) / _ / RealConst.THREE = (0 : ℝ)
    rw [zero_div, zero_div]

theorem magnitude_unit_mul_sub_zero (a rr : ℝ) (hr : 0 ≤ rr) :
    (Vec2.unit a * rr - Vec2.zero).magnitude = rr := by
  unfold Vec2.magnitude
  show Real.sqrt ((Real.cos a * rr - 0) * (Real.cos a * rr - 0)
    + (Real.sin a * rr - 0) * (Real.sin a * rr - 0)) = rr
  rw [show (Real.cos a * rr - 0) * (Real.cos a * rr - 0)
      + (Real.sin a * rr - 0) * (Real.sin a * rr - 0)
      = rr ^ 2 * (Real.sin a ^ 2 + Real.cos a ^ 2) by ring]
  rw [Real.sin_sq_add_cos_sq, mul_one, Real.sqrt_sq hr]

theorem rotate_unit_step (a t rr : ℝ) :
    (Vec2.unit a * rr - Vec2.zero).rotate t = Vec2.unit (a + t) * rr - Vec2.zero := by
  unfold Vec2.rotate
  ext
  · show (Real.cos a * rr - 0) * Real.cos t - (Real.sin a * rr - 0) * Real.sin t
      = Real.cos (a + t) * rr - 0
    rw [Real.cos_add]
    ring
  · show (Real.cos a * rr - 0) * Real.sin t + (Real.sin a * rr - 0) * Real.cos t
      = Real.sin (a + t) * rr - 0
    rw [Real.sin_add]
    ring

theorem sin_pi_div_nat_pos (n : ℕ) (h2 : 2 ≤ n) :
    0 < Real.sin (RealConst.PI / (n : ℝ)) := by
  have hnR : (0 : ℝ) < n := Nat.cast_pos.mpr (by omega)
  have hn1 : (1 : ℝ) < n := by
    have : (2 : ℝ) ≤ n := by exact_mod_cast h2
    linarith
  have hpi := Real.pi_pos
  unfold RealConst.PI
  apply Real.sin_pos_of_pos_of_lt_pi
  · positivity
  · rw [div_lt_iff hnR]
    nlinarith

theorem regular_getD (n : ℕ) (s : ℝ) (j : ℕ) (hj : j < n) :
    ((List.range n).map (fun k : ℕ =>
      Vec2.unit ((k : ℝ) * (RealConst.TWO * RealConst.PI / (n : ℝ)))
        * (s * RealConst.HALF / Real.sin (RealConst.PI / (n : ℝ))))).getD j Vec2.zero
      = Vec2.unit ((j : ℝ) * (RealConst.TWO * RealConst.PI / (n : ℝ)))
        * (s * RealConst.HALF / Real.sin (RealConst.PI / (n : ℝ))) := by
  rw [List.getD_eq_getElem?_getD, List.getElem?_map, List.getElem?_range hj]
  rfl

/-- Claim C7: for every order n at least 3 and positive side length s, the
polygon from Poly2 regular has exactly n vertices, each at distance
s over twice the sine of pi over n from the centroid the code computes,
and each next vertex is the previous one rotated about the centroid by
two pi over n. -/
theorem claim7_regular_polygon (n : ℕ) (s : ℝ) (h3 : 3 ≤ n) (hs : 0 < s) :
    ∃ p : Poly2, Poly2.regular n s = some p ∧
      p.vertices.length = n ∧
      (∀ v ∈ p.vertices,
        (v - p.centroid).magnitude = s / (2 * Real.sin (Real.pi / (n : ℝ)))) ∧
      (∀ i : ℕ, i + 1 < n →
        p.vertices.getD (i + 1) Vec2.zero - p.centroid
          = (p.vertices.getD i Vec2.zero - p.centroid).rotate
              (2 * Real.pi / (n : ℝ))) := by
  have hcent := centroid_regular_eq_zero n s h3 hs
  have hsinpos := sin_pi_div_nat_pos n (by omega)
  have hrpos : 0 < s * RealConst.HALF / Real.sin (RealConst.PI / (n : ℝ)) := by
    apply div_pos _ hsinpos
    apply mul_pos hs
    unfold RealConst.HALF
    norm_num
  have hrval : s * RealConst.HALF / Real.sin (RealConst.PI / (n : ℝ))
      = s / (2 * Real.sin (Real.pi / (n : ℝ))) := by
    unfold RealConst.HALF RealConst.PI
    rw [show (0.5 : ℝ) = 1 / 2 by norm_num]
    ring
  refine ⟨⟨(List.range n).map (fun k : ℕ =>
      Vec2.unit ((k : ℝ) * (RealConst.TWO * RealConst.PI / (n : ℝ)))
        * (s * RealConst.HALF / Real.sin (RealConst.PI / (n : ℝ))))⟩,
    regular_eq n s h3 hs, ?_, ?_, ?_⟩
  · show ((List.range n).map _).length = n
    rw [List.length_map, List.length_range]
  · intro v hv
    show (v - Poly2.centroid _).magnitude = _
    rw [hcent]
    rw [show ((⟨(List.range n).map (fun k : ℕ =>
        Vec2.unit ((k : ℝ) * (RealConst.TWO * RealConst.PI / (n : ℝ)))
          * (s * RealConst.HALF / Real.sin (RealConst.PI / (n : ℝ))))⟩ :
        Poly2).vertices) = (List.range n).map (fun k : ℕ =>
        Vec2.unit ((k : ℝ) * (RealConst.TWO * RealConst.PI / (n : ℝ)))
          * (s * RealConst.HALF / Real.sin (RealConst.PI / (n : ℝ)))) from rfl,
      List.mem_map] at hv
    obtain ⟨k, _, rfl⟩ := hv
    rw [magnitude_unit_mul_sub_zero _ _ (le_of_lt hrpos), hrval]
  · intro i hi
    show ((List.range n).map (fun k : ℕ =>
        Vec2.unit ((k : ℝ) * (RealConst.TWO * RealConst.PI / (n : ℝ)))
          * (s * RealConst.HALF / Real.sin (RealConst.PI / (n : ℝ))))).getD (i + 1)
        Vec2.zero - Poly2.centroid _
      = (((List.range n).map (fun k : ℕ =>
        Vec2.unit ((k : ℝ) * (RealConst.TWO * RealConst.PI / (n : ℝ)))
          * (s * RealConst.HALF / Real.sin (RealConst.PI / (n : ℝ))))).getD i
        Vec2.zero - Poly2.centroid _).rotate (2 * Real.pi / (n : ℝ))
    rw [hcent, regular_getD n s (i + 1) hi, regular_getD n s i (by omega),
      rotate_unit_step]
    rw [show ((i + 1 : ℕ) : ℝ) * (RealConst.TWO * RealConst.PI / (n : ℝ))
        = (i : ℝ) * (RealConst.TWO * RealConst.PI / (n : ℝ)) + 2 * Real.pi / (n : ℝ) by
      unfold RealConst.TWO RealConst.PI
      push_cast
      ring]

/-! ## Witnesses at concrete inputs -/

/-- Witness for claim C1: a concrete parse with an empty phase list, and
the round trip at its result. -/
theorem claim1_witness :
    tryFrom (("3/m30/r(h2)").toList) = Except.ok
      ⟨3, [], [Transformation.Reflection (TransformationSource.Origin (some 30)),
        Transformation.Rotation (TransformationSource.Vertex (VertexType.Edge 2))]⟩ ∧
    tryFrom (formatConfiguration
      ⟨3, [], [Transformation.Reflection (TransformationSource.Origin (some 30)),
        Transformation.Rotation (TransformationSource.Vertex (VertexType.Edge 2))]⟩)
      = Except.ok
      ⟨3, [], [Transformation.Reflection (TransformationSource.Origin (some 30)),
        Transformation.Rotation (TransformationSource.Vertex (VertexType.Edge 2))]⟩ :=
  ⟨rfl, claim1_parse_format_roundtrip (("3/m30/r(h2)").toList) _ rfl⟩

/-- Witness for claim C4 amended at a concrete input with a numeric
remainder after the unknown kind character. -/
theorem claim4_amended_witness :
    tryFrom (("3/x30").toList) = Except.error msgUnknownTransformationChar := by
  have h := claim4_amended 'x' ['3', '0'] (by decide) (by decide) (by decide)
    (Or.inr (Or.inl ⟨30, rfl⟩))
  exact h

/-- Witness for claim C9 at square-bracket delimiters. -/
theorem claim9_witness :
    ∃ t : Transformation,
      tryFrom (("3/r[v2]").toList) = Except.ok ⟨3, [], [t]⟩ ∧
      mkTransformation 'r' (TransformationSource.Vertex
        (if ('v' : Char) = 'v' then VertexType.Corner 2
         else if ('v' : Char) = 'c' then VertexType.Centre 2
         else VertexType.Edge 2)) = Except.ok t := by
  have h := claim9_unverified_delimiters 'r' '[' 'v' ']' 2 (Or.inl rfl) (Or.inl rfl)
    (by norm_num [USIZE]) (by decide) (by decide)
  exact h

/-- Witness for claim C7 at order 3 and side length 1. -/
theorem claim7_witness :
    (3 : ℕ) ≤ 3 ∧ (0 : ℝ) < 1 ∧
    (∃ p : Poly2, Poly2.regular 3 1 = some p ∧
      p.vertices.length = 3 ∧
      (∀ v ∈ p.vertices,
        (v - p.centroid).magnitude = 1 / (2 * Real.sin (Real.pi / ((3 : ℕ) : ℝ)))) ∧
      (∀ i : ℕ, i + 1 < 3 →
        p.vertices.getD (i + 1) Vec2.zero - p.centroid
          = (p.vertices.getD i Vec2.zero - p.centroid).rotate
              (2 * Real.pi / ((3 : ℕ) : ℝ)))) :=
  ⟨le_refl 3, one_pos, claim7_regular_polygon 3 1 (le_refl 3) one_pos⟩

/-- Witness for claim C10 at a concrete triangle. -/
theorem claim10_witness :
    1 ≤ (Poly2.mk [Vec2.new 0 0, Vec2.new 1 0, Vec2.new 0 1]).vertices.length ∧
    ((Poly2.mk [Vec2.new 0 0, Vec2.new 1 0, Vec2.new 0 1]).edges.length
        = (Poly2.mk [Vec2.new 0 0, Vec2.new 1 0, Vec2.new 0 1]).vertices.length - 1 ∧
      ∀ i, i < (Poly2.mk [Vec2.new 0 0, Vec2.new 1 0, Vec2.new 0 1]).vertices.length - 1 →
        (Poly2.mk [Vec2.new 0 0, Vec2.new 1 0, Vec2.new 0 1]).edges.getD i
            (LineSegment2.new Vec2.zero Vec2.zero)
          = LineSegment2.new
              ((Poly2.mk [Vec2.new 0 0, Vec2.new 1 0,
                Vec2.new 0 1]).vertices.getD i Vec2.zero)
              ((Poly2.mk [Vec2.new 0 0, Vec2.new 1 0,
                Vec2.new 0 1]).vertices.getD (i + 1) Vec2.zero)) :=
  ⟨by simp, claim10_edges (Poly2.mk [Vec2.new 0 0, Vec2.new 1 0, Vec2.new 0 1]) (by simp)⟩

end Gactk
